import Mathlib

/-!
# Hook scheduling engine of porter (`hook/hook.go`)

A shallow embedding of the hook runner: hook selection, batch planning with
barriers, the per-hook executor, and the per-region fan-out, followed by the
properties proved about them.

Conventions of the embedding.

* A Go `string` is a Lean `String`; a `[]string` is a `List String`.
* The chain of `hookLinkedList` nodes reachable from `head` through `next` is a
  Lean `List` of nodes; appending at `tail` is `++ [node]`.
* A goroutine started with `go` is recorded as a pending delivery on the
  channel it sends to.  A receive takes one pending delivery, chosen by a
  scheduler function, so every arrival order is some scheduler; a receive with
  no pending delivery blocks for ever, which the model reports as `none`.
  External commands are taken to end: the code has no timeout, and a command
  that hangs is outside the model.
* Two objects are written by several goroutines.  The array behind `runArgs` is
  shared by the hook goroutines of a pass: `raceBatch` runs the goroutines of a
  batch on it, and `runConfigHook` reads what they left through
  `External.argsRead`.  The run-output channel is shared by the passes of all
  regions: with capture requested `ExecuteWithRunCapture` runs them together,
  one step at a time (`sharedRun`), and a send on a full channel blocks for ever.
* `concurrentCount`, `eligibleHookCount` and hook positions are Go `int`s that
  never exceed the length of the hook list, so they are `Nat`; the global
  counter is a `uint32` and wraps, so `AddUint32` reduces modulo `2 ^ 32`.
* External commands (`git`, `docker`), the process environment and the `conf`,
  `constants`, `aws_session`, `elb` packages are collaborators: their results are
  read from explicit parameters.
-/

namespace Porter

/-! ## Data model -/

/-- Modelled from the spec: `conf.Hook` is declared in package `conf`; these are
the fields `hook.go` reads.  `Environment` is a Go map, given here as its
entries in the order one `range` loop visits them. -/
structure Hook where
  Repo : String
  Ref : String
  Dockerfile : String
  Environment : List (String × String)
  Concurrent : Bool
  RunCondition : String
deriving DecidableEq, Repr

/-- Modelled from the spec: the values of package `constants` that `hook.go`
uses.  `HRC_Always` is the third run-condition tag of the spec; `hook.go` never
names it. -/
structure Constants where
  HRC_Fail : String
  HRC_Pass : String
  HRC_Always : String
  TempDir : String
  EnvFile : String
  HAProxyStatsUsername : String
  HAProxyStatsPassword : String
  HAProxyStatsUrl : String
deriving DecidableEq, Repr

/-- The receiver `regionHookRunner`.  `runOutput` records whether the pointer
`recv.runOutput` is non-nil; the log buffer is not modelled. -/
structure regionHookRunner where
  runOutput : Bool
  serviceName : String
  hookName : String
  commandSuccess : Bool
deriving DecidableEq, Repr

/-- One node of `hookLinkedList`: the hook and its position in the configured
list.  The `next` pointer is the tail of the Lean list holding the node. -/
structure hookLinkedList where
  hook : Hook
  hookIndex : Nat
deriving DecidableEq, Repr

/-- What one `runConfigHook` goroutine produces: the boolean it sends on
`successChan` and the buffers it sends on `*recv.runOutput`. -/
structure HookOutcome where
  success : Bool
  runOutput : List String
deriving DecidableEq, Repr

/-! ## Hook selection (`runConfigHooks`, first loop) -/

/-- The two `continue` guards of the selection loop. -/
def skipped (c : Constants) (commandSuccess : Bool) (hook : Hook) : Bool :=
  if commandSuccess then
    if hook.RunCondition = c.HRC_Fail then true else false
  else
    if hook.RunCondition = c.HRC_Pass then true else false

/-- The loop `for hookIndex, hook := range hooks`, from position `hookIndex` on,
over the state `(eligibleHookCount, chain from head)`. -/
def selectLoop (c : Constants) (commandSuccess : Bool) :
    List Hook → Nat → Nat × List hookLinkedList → Nat × List hookLinkedList
  | [], _, st => st
  | hook :: rest, hookIndex, (eligibleHookCount, chain) =>
    if skipped c commandSuccess hook then
      selectLoop c commandSuccess rest (hookIndex + 1) (eligibleHookCount, chain)
    else
      selectLoop c commandSuccess rest (hookIndex + 1)
        (eligibleHookCount + 1, chain ++ [{ hook := hook, hookIndex := hookIndex }])

/-- The selection loop run from the initial state `eligibleHookCount = 0`,
`head = nil`. -/
def selectHooks (c : Constants) (commandSuccess : Bool) (hooks : List Hook) :
    Nat × List hookLinkedList :=
  selectLoop c commandSuccess hooks 0 (0, [])

/-! ## Batch loop (`runConfigHooks`, second loop) -/

/-- Observable steps of the batch loop. -/
inductive Event where
  /-- The statement `go goGadgetHook(log, node.hookIndex, node.hook, runArgs)`. -/
  | launch (node : hookLinkedList)
  /-- Entry of the barrier, with the value of `concurrentCount`. -/
  | wait (concurrentCount : Nat)
  /-- One `success = <-successChan`, with the sender and the value. -/
  | recv (node : hookLinkedList) (success : Bool)
  /-- Exit of the barrier after `concurrentCount` successful receives. -/
  | finished (concurrentCount : Nat)
deriving DecidableEq, Repr

/-- State of the batch loop.  `pending` holds the goroutines launched whose
`successChan` send has not been received yet; `clock` counts receives. -/
structure LoopState where
  concurrentCount : Nat
  pending : List (hookLinkedList × Bool)
  clock : Nat
  trace : List Event
deriving DecidableEq, Repr

/-- How a loop leaves: it runs to its end, it executes `return`, or it blocks
for ever on a receive. -/
inductive Flow where
  | continue (s : LoopState)
  | returned (success : Bool) (s : LoopState)
  | blocked (s : LoopState)
deriving DecidableEq, Repr

/-- The barrier `for i := 0; i < concurrentCount; i++`, with `n` iterations
left.  Each iteration receives one pending result, the one the scheduler picks,
and returns on a failure. -/
def waitLoop (sched : Nat → Nat) : Nat → LoopState → Flow
  | 0, s => Flow.continue s
  | n + 1, s =>
    match s.pending[sched s.clock % s.pending.length]? with
    | none => Flow.blocked s
    | some (node, success) =>
      let s1 : LoopState :=
        { s with
          pending := s.pending.eraseIdx (sched s.clock % s.pending.length)
          clock := s.clock + 1
          trace := s.trace ++ [Event.recv node success] }
      if !success then Flow.returned false s1 else waitLoop sched n s1

/-- The lookahead `node.next == nil || !node.next.hook.Concurrent`. -/
def barrierDue : List hookLinkedList → Bool
  | [] => true
  | next :: _ => !next.hook.Concurrent

/-- The loop `for node := head; node != nil; node = node.next`.  `exec` gives the
boolean the goroutine of a node will send. -/
def batchLoop (exec : hookLinkedList → HookOutcome) (sched : Nat → Nat) :
    List hookLinkedList → LoopState → Flow
  | [], s => Flow.continue s
  | node :: rest, s =>
    let concurrentCount := if node.hook.Concurrent then s.concurrentCount + 1 else 1
    let s1 : LoopState :=
      { s with
        concurrentCount := concurrentCount
        pending := s.pending ++ [(node, (exec node).success)]
        trace := s.trace ++ [Event.launch node] }
    if barrierDue rest then
      match waitLoop sched concurrentCount
          { s1 with trace := s1.trace ++ [Event.wait concurrentCount] } with
      | Flow.continue s2 =>
        batchLoop exec sched rest
          { s2 with
            concurrentCount := 0
            trace := s2.trace ++ [Event.finished concurrentCount] }
      | other => other
    else
      batchLoop exec sched rest s1

/-- Result of one `runConfigHooks` pass.  `success = none` means the pass never
returns. -/
structure PassResult where
  success : Option Bool
  eligibleHookCount : Nat
  runOutputCap : Option Nat
  trace : List Event
  runOutputSent : List String
deriving DecidableEq, Repr

/-- The state and return value a `Flow` stands for at the end of
`runConfigHooks`: falling out of the loop reaches `success = true`. -/
def Flow.result : Flow → Option Bool × LoopState
  | Flow.continue s => (some true, s)
  | Flow.returned b s => (some b, s)
  | Flow.blocked s => (none, s)

/-- The nodes launched, in launch order. -/
def launched : List Event → List hookLinkedList
  | [] => []
  | Event.launch node :: tr => node :: launched tr
  | _ :: tr => launched tr

/-- The initial state of the batch loop: `concurrentCount` is zero and nothing
has been launched. -/
def LoopState.init : LoopState :=
  { concurrentCount := 0, pending := [], clock := 0, trace := [] }

/-- The method `runConfigHooks`.  `exec hookIndex hook runArgs` is the outcome of
the goroutine running `recv.runConfigHook(log, hookIndex, hook, runArgs)`;
`runOutputSent` lists the buffers the launched goroutines send on
`*recv.runOutput`. -/
def runConfigHooks (c : Constants) (recv : regionHookRunner)
    (exec : Nat → Hook → List String → HookOutcome) (sched : Nat → Nat)
    (hooks : List Hook) (runArgs : List String) : PassResult :=
  let sel := selectHooks c recv.commandSuccess hooks
  let fl := batchLoop (fun node => exec node.hookIndex node.hook runArgs) sched sel.2
    LoopState.init
  { success := fl.result.1
    eligibleHookCount := sel.1
    runOutputCap := if recv.runOutput then some sel.1 else none
    trace := fl.result.2.trace
    runOutputSent := (launched fl.result.2.trace).flatMap
      (fun node => (exec node.hookIndex node.hook runArgs).runOutput) }

/-! ## Reading a trace -/

/-- The nodes whose result has been received, in receive order. -/
def collected : List Event → List hookLinkedList
  | [] => []
  | Event.recv node _ :: tr => node :: collected tr
  | _ :: tr => collected tr

/-- The nodes launched after the last barrier entry of the trace, with `cur` the
ones accumulated before the trace starts. -/
def sinceBarrierFrom : List Event → List hookLinkedList → List hookLinkedList
  | [], cur => cur
  | Event.launch node :: tr, cur => sinceBarrierFrom tr (cur ++ [node])
  | Event.wait _ :: tr, _ => sinceBarrierFrom tr []
  | _ :: tr, cur => sinceBarrierFrom tr cur

/-- The nodes launched after the last barrier entry of a whole trace. -/
def sinceBarrier (tr : List Event) : List hookLinkedList :=
  sinceBarrierFrom tr []

/-- The receive events for a list of deliveries. -/
def recvEvents (rs : List (hookLinkedList × Bool)) : List Event :=
  rs.map (fun p => Event.recv p.1 p.2)

/-- The batches of a trace: the nodes launched up to the first barrier entry,
then between each two consecutive barrier entries, with `cur` the batch being
accumulated. -/
def batchesFrom : List Event → List hookLinkedList → List (List hookLinkedList)
  | [], cur => if cur.isEmpty then [] else [cur]
  | Event.launch node :: tr, cur => batchesFrom tr (cur ++ [node])
  | Event.wait _ :: tr, cur => cur :: batchesFrom tr []
  | _ :: tr, cur => batchesFrom tr cur

/-- The batches of a whole trace. -/
def batches (tr : List Event) : List (List hookLinkedList) :=
  batchesFrom tr []

/-! ## The batch plan, in the words of the specification -/

/-- Whether a hook's run-condition is satisfied for the parent outcome: it is
not `HRC_Fail` when the parent succeeded, and not `HRC_Pass` when it failed. -/
def eligible (c : Constants) (commandSuccess : Bool) (hook : Hook) : Bool :=
  if commandSuccess then decide (hook.RunCondition ≠ c.HRC_Fail)
  else decide (hook.RunCondition ≠ c.HRC_Pass)

/-- The partition of an eligible sequence into its maximal runs in which every
hook after the first is flagged concurrent: a hook joins the batch of its
successor exactly when the successor has the flag set. -/
def planBatches : List hookLinkedList → List (List hookLinkedList)
  | [] => []
  | [node] => [[node]]
  | node :: next :: rest =>
    if next.hook.Concurrent then
      match planBatches (next :: rest) with
      | batch :: more => (node :: batch) :: more
      | [] => [[node]]
    else
      [node] :: planBatches (next :: rest)

/-- The batches of a plan that get launched under fail-fast: every batch up to
and including the first one holding a hook that fails. -/
def ranBatches (ok : hookLinkedList → Bool) :
    List (List hookLinkedList) → List (List hookLinkedList)
  | [] => []
  | batch :: more => if batch.all ok then batch :: ranBatches ok more else [batch]

/-- The shape of the events one batch loop appends, batch by batch: a batch is a
node followed by flagged nodes up to a node where the barrier is due.  Either
all its hooks succeed, every one is collected and the loop goes on, or one
fails and the loop returns at the barrier. -/
inductive BatchRun (ok : hookLinkedList → Bool) :
    List hookLinkedList → List Event → Bool → Prop where
  | done : BatchRun ok [] [] true
  | pass (node : hookLinkedList) (tl rest : List hookLinkedList)
      (rs : List (hookLinkedList × Bool)) (evs : List Event) (r : Bool) :
      (∀ t ∈ tl, t.hook.Concurrent = true) → barrierDue rest = true →
      (∀ n ∈ node :: tl, ok n = true) → (rs.map Prod.fst).Perm (node :: tl) →
      BatchRun ok rest evs r →
      BatchRun ok (node :: (tl ++ rest))
        ((node :: tl).map Event.launch ++ Event.wait (tl.length + 1) ::
          (recvEvents rs ++ Event.finished (tl.length + 1) :: evs)) r
  | fail (node : hookLinkedList) (tl rest : List hookLinkedList)
      (rs : List (hookLinkedList × Bool)) :
      (∀ t ∈ tl, t.hook.Concurrent = true) → barrierDue rest = true →
      (∃ n ∈ node :: tl, ok n = false) →
      BatchRun ok (node :: (tl ++ rest))
        ((node :: tl).map Event.launch ++ Event.wait (tl.length + 1) :: recvEvents rs) false

/-- The condition an event of a trace meets given the events `pre` before it.
At a launch and at a barrier entry, the nodes launched so far are the ones
collected so far together with the ones launched since the previous barrier
entry; at a barrier entry the count waited for is the number of the latter. -/
def barrierOK (pre : List Event) : Event → Prop
  | Event.launch _ => (launched pre).Perm (collected pre ++ sinceBarrier pre)
  | Event.wait n =>
    n = (sinceBarrier pre).length ∧ (launched pre).Perm (collected pre ++ sinceBarrier pre)
  | _ => True

/-- Every event of the trace meets `barrierOK` at its position. -/
def TraceOK (tr : List Event) : Prop :=
  ∀ pre e post, tr = pre ++ e :: post → barrierOK pre e

/-! ## The hook executor (`runConfigHook`, `buildAndRun`) -/

/-- External commands and process state read by one hook invocation.  Each
command is given by whether it ends without error, as a function of its
arguments. -/
structure External where
  /-- The function `os.Getenv`. -/
  getenv : String → String
  /-- The function `path.Join` on two elements. -/
  pathJoin : String → String → String
  /-- Whether `git clone --branch ref --depth 1 repo repoDir` succeeds. -/
  gitClone : String → String → String → Bool
  /-- Whether `docker build -t imageName -f dockerFilePath dir` succeeds. -/
  dockerBuild : String → String → Bool
  /-- Whether `docker runArgs...` succeeds, and its standard output. -/
  dockerRun : List String → Bool × String
  /-- What `exec.Command("docker", runArgs...)` copies out of the array behind
  `runArgs`, given the elements this invocation put there.  The goroutines of a
  batch are handed one slice (`hook.go:343`) and `append` writes into its array
  while capacity lasts (`:375`, `:479`), so an invocation of the same batch may
  have overwritten them; `raceBatch` computes what is found.  For an invocation
  with no other writer it is the identity. -/
  argsRead : List String → List String

/-- The function `atomic.AddUint32`: the new value of the 32-bit word. -/
def AddUint32 (addr : Nat) (delta : Nat) : Nat :=
  (addr + delta) % 2 ^ 32

/-- The format `fmt.Sprintf("%s_clone_%d_%d", hookName, hookIndex, hookCounter)`. -/
def repoDirName (hookName : String) (hookIndex hookCounter : Nat) : String :=
  hookName ++ "_clone_" ++ Nat.repr hookIndex ++ "_" ++ Nat.repr hookCounter

/-- The format `fmt.Sprintf("%s-%s-%d-%d", serviceName, hookName, hookIndex,
hookCounter)`. -/
def imageNameOf (serviceName hookName : String) (hookIndex hookCounter : Nat) : String :=
  serviceName ++ "-" ++ hookName ++ "-" ++ Nat.repr hookIndex ++ "-" ++ Nat.repr hookCounter

/-- The loop `for envKey, envValue := range hook.Environment` over the entries
in the order the loop visits them. -/
def resolveEnv (getenv : String → String) :
    List (String × String) → List String → List String
  | [], runArgs => runArgs
  | (envKey, envValue) :: rest, runArgs =>
    let envValue := if envValue = "" then getenv envKey else envValue
    resolveEnv getenv rest (runArgs ++ ["-e", envKey ++ "=" ++ envValue])

/-- The deferred send `*recv.runOutput <- runOutput` of `buildAndRun`. -/
def sendRunOutput (recv : regionHookRunner) (runOutput : String) : List String :=
  if recv.runOutput then [runOutput] else []

/-- The method `buildAndRun`. -/
def buildAndRun (ext : External) (recv : regionHookRunner)
    (imageName dockerFilePath : String) (runArgs : List String) : HookOutcome :=
  if !ext.dockerBuild imageName dockerFilePath then
    { success := false, runOutput := sendRunOutput recv "" }
  else
    let runArgs := runArgs ++ [imageName]
    let run := ext.dockerRun (ext.argsRead runArgs)
    if !run.1 then
      { success := false, runOutput := sendRunOutput recv run.2 }
    else
      { success := true, runOutput := sendRunOutput recv run.2 }

/-- The block `if hook.Repo != ""` of `runConfigHook`: the build file path after
it, or `none` where it executes `return` on a clone error. -/
def cloneStep (c : Constants) (ext : External) (recv : regionHookRunner)
    (hookCounter hookIndex : Nat) (hook : Hook) : Option String :=
  let dockerFilePath := hook.Dockerfile
  if hook.Repo ≠ "" then
    let repoDir := repoDirName recv.hookName hookIndex hookCounter
    let repoDir := ext.pathJoin c.TempDir repoDir
    if !ext.gitClone hook.Ref hook.Repo repoDir then
      none
    else
      let dockerFilePath := if dockerFilePath = "" then "Dockerfile" else dockerFilePath
      some (ext.pathJoin repoDir dockerFilePath)
  else
    some dockerFilePath

/-- The method `runConfigHook`, from the value `globalCounter` holds when the
invocation increments it.  Returns the new value of the counter, which is the
invocation's `hookCounter`, and the outcome.  `runArgs` holds the elements of
the slice the invocation is handed; what other goroutines do to the array
behind it reaches the invocation through `ext.argsRead`. -/
def runConfigHook (c : Constants) (ext : External) (recv : regionHookRunner)
    (globalCounter : Nat) (hookIndex : Nat) (hook : Hook) (runArgs : List String) :
    Nat × HookOutcome :=
  let runArgs := resolveEnv ext.getenv hook.Environment runArgs
  let hookCounter := AddUint32 globalCounter 1
  match cloneStep c ext recv hookCounter hookIndex hook with
  | none => (hookCounter, { success := false, runOutput := [] })
  | some dockerFilePath =>
    let imageName := imageNameOf recv.serviceName recv.hookName hookIndex hookCounter
    (hookCounter, buildAndRun ext recv imageName dockerFilePath runArgs)

/-- One call of `runConfigHook`, as the process sees it. -/
structure Invocation where
  recv : regionHookRunner
  hookIndex : Nat
  hook : Hook
  runArgs : List String

/-- A sequence of `runConfigHook` calls in the order their atomic increments
take effect, threading `globalCounter`.  Each entry is the `hookCounter` of the
call and its outcome. -/
def invokeAll (c : Constants) (ext : External) :
    Nat → List Invocation → List (Nat × HookOutcome)
  | _, [] => []
  | globalCounter, inv :: rest =>
    let r := runConfigHook c ext inv.recv globalCounter inv.hookIndex inv.hook inv.runArgs
    r :: invokeAll c ext r.1 rest

/-- The goroutine body `recv.runConfigHook(log, hookIndex, hook, runArgs)` of a
pass, where `counterSeen hookIndex` is the value of `globalCounter` at the
moment that invocation increments it, and `ext.argsRead` what the other
goroutines of its batch left in the array behind `runArgs`. -/
def hookGoroutine (c : Constants) (ext : External) (recv : regionHookRunner)
    (counterSeen : Nat → Nat) (hookIndex : Nat) (hook : Hook) (runArgs : List String) :
    HookOutcome :=
  (runConfigHook c ext recv (counterSeen hookIndex) hookIndex hook runArgs).2

/-! ## The argument slice shared by the goroutines of a batch

`runConfigHooks` hands the same slice `runArgs` to every goroutine it starts
(`hook.go:343`).  Each `append` in `runConfigHook` (`:375`) and `buildAndRun`
(`:479`) writes into the array behind that slice while its capacity lasts, and
goes to an array of its own only when it has to grow.  The goroutines of one
batch run together, so their writes and the copy `exec.Command` takes
interleave; those of different batches are separated by a barrier. -/

/-- The variable `runArgs` of one goroutine: a slice of the array the pass
handed out, with its length, or a slice of an array of its own after `append`
had to grow. -/
inductive ArgsVar where
  | shared (len : Nat)
  | own (elems : List String)
deriving DecidableEq, Repr

/-- The built-in `append(runArgs, xs...)`, on the array behind the slice the pass
handed out, whose length is the capacity of that slice.  Returns the array and
the new value of the variable. -/
def goAppend (array : List String) (runArgs : ArgsVar) (xs : List String) :
    List String × ArgsVar :=
  match runArgs with
  | ArgsVar.shared len =>
    if len + xs.length ≤ array.length then
      (array.take len ++ xs ++ array.drop (len + xs.length), ArgsVar.shared (len + xs.length))
    else
      (array, ArgsVar.own (array.take len ++ xs))
  | ArgsVar.own elems => (array, ArgsVar.own (elems ++ xs))

/-- The elements a slice variable shows. -/
def goRead (array : List String) (runArgs : ArgsVar) : List String :=
  match runArgs with
  | ArgsVar.shared len => array.take len
  | ArgsVar.own elems => elems

/-- The elements of the `append` calls of the loop over `hook.Environment`, one
call per entry. -/
def envAppends (getenv : String → String) (env : List (String × String)) :
    List (List String) :=
  env.map (fun kv => ["-e", kv.1 ++ "=" ++ (if kv.2 = "" then getenv kv.1 else kv.2)])

/-- One goroutine of a batch, as far as the argument slice goes: its variable
`runArgs`, the `append` calls it still has to make, whether it gets as far as
`exec.Command("docker", runArgs...)`, and the arguments that call copied. -/
structure RaceProc where
  node : hookLinkedList
  runArgs : ArgsVar
  appends : List (List String)
  reads : Bool
  command : Option (List String)
deriving DecidableEq, Repr

/-- The goroutine of `node` at its start, handed a slice of length `len`: it
appends the environment entries, and when the clone and the build succeed it
appends the image name and builds the command. -/
def raceProc (c : Constants) (ext : External) (recv : regionHookRunner)
    (counterSeen : Nat → Nat) (len : Nat) (node : hookLinkedList) : RaceProc :=
  let hookCounter := AddUint32 (counterSeen node.hookIndex) 1
  let imageName := imageNameOf recv.serviceName recv.hookName node.hookIndex hookCounter
  let reads :=
    match cloneStep c ext recv hookCounter node.hookIndex node.hook with
    | none => false
    | some dockerFilePath => ext.dockerBuild imageName dockerFilePath
  { node := node
    runArgs := ArgsVar.shared len
    appends := envAppends ext.getenv node.hook.Environment ++
      (if reads then [[imageName]] else [])
    reads := reads
    command := none }

/-- Whether a goroutine has nothing left to do to the slice. -/
def RaceProc.finished (p : RaceProc) : Bool :=
  p.appends.isEmpty && (!p.reads || p.command.isSome)

/-- The steps a goroutine of a batch still has to take on the slice. -/
def RaceProc.stepsLeft (p : RaceProc) : Nat :=
  p.appends.length + (if p.reads && p.command.isNone then 1 else 0)

/-- One step of a goroutine: its next `append`, or the copy `exec.Command`
takes. -/
def raceStep (array : List String) (p : RaceProc) : List String × RaceProc :=
  match p.appends with
  | xs :: rest =>
    let r := goAppend array p.runArgs xs
    (r.1, { p with runArgs := r.2, appends := rest })
  | [] =>
    if p.reads && p.command.isNone then
      (array, { p with command := some (goRead array p.runArgs) })
    else
      (array, p)

/-- The goroutines of a batch run to their end, `msched` picking at each step
which unfinished goroutine moves. -/
def raceRun (msched : Nat → Nat) :
    Nat → Nat → List String → List RaceProc → List String × List RaceProc
  | 0, _, array, procs => (array, procs)
  | fuel + 1, clock, array, procs =>
    let active := (List.range procs.length).filter
      (fun i => match procs[i]? with
        | some p => !p.finished
        | none => false)
    match active[msched clock % active.length]? with
    | none => (array, procs)
    | some i =>
      match procs[i]? with
      | none => (array, procs)
      | some p =>
        let r := raceStep array p
        raceRun msched fuel (clock + 1) r.1 (procs.set i r.2)

/-- The arguments each goroutine of a batch hands to `docker`, when all are
started on the slice with elements `runArgs` and `spare` free places behind
them: `none` for a goroutine that does not get as far as `docker run`.  The
number of steps is the number of `append` calls and copies of the batch. -/
def raceBatch (c : Constants) (ext : External) (recv : regionHookRunner)
    (counterSeen : Nat → Nat) (msched : Nat → Nat) (runArgs : List String) (spare : Nat)
    (batch : List hookLinkedList) : List (Option (List String)) :=
  let procs := batch.map (raceProc c ext recv counterSeen runArgs.length)
  let fuel := (procs.map (fun p => p.appends.length + 1)).sum
  (raceRun msched fuel 0 (runArgs ++ List.replicate spare "") procs).2.map
    (fun p => p.command)

/-! ## The coordinator (`ExecuteWithRunCapture`) -/

/-- Modelled from the spec: `provision_output.Region`, with the fields `hook.go`
reads. -/
structure Region where
  AWSRegion : String
  StackId : String
  ProvisionedELBName : String
deriving DecidableEq, Repr

/-- Modelled from the spec: `conf.Region`, of which `hook.go` reads `Name`. -/
structure ConfRegion where
  Name : String
deriving DecidableEq, Repr

/-- Modelled from the spec: `conf.Environment` with its methods `GetRegion` and
`GetRoleARN`; `none` is a non-nil error. -/
structure Environment where
  Regions : List ConfRegion
  GetRegion : String → Option ConfRegion
  GetRoleARN : String → Option String

/-- Modelled from the spec: `conf.Config`; `Hooks` is the map lookup
`config.Hooks[hookName]` and `GetEnvironment` the method, `none` being a
missing key or a non-nil error. -/
structure Config where
  ServiceName : String
  Hooks : String → Option (List Hook)
  GetEnvironment : String → Option Environment

/-- The value `roleSession.Config.Credentials.Get()` returns. -/
structure Credentials where
  AccessKeyID : String
  SecretAccessKey : String
  SessionToken : String
deriving DecidableEq, Repr

/-- The collaborators of `ExecuteWithRunCapture`. -/
structure World where
  /-- The call `conf.GetConfig(log, false)`; `none` when `configSuccess` is false. -/
  GetConfig : Option Config
  /-- The call `os.Getwd()`; `none` on error. -/
  Getwd : Option String
  /-- Output of `git rev-parse --short HEAD`; `none` on error. -/
  revParse : Option String
  /-- The function `strings.TrimSpace`. -/
  TrimSpace : String → String
  /-- The call `os.Environ()`. -/
  Environ : List String
  /-- The DNS names found by `elb.DescribeLoadBalancers` for a region name, role
  and load-balancer name; `none` on error. -/
  DescribeLoadBalancers : String → String → String → Option (List String)
  /-- The credentials of the session for a region name and role; on error the
  code only warns and uses the value returned. -/
  CredentialsGet : String → String → Credentials

/-- The function `runArgsFactory`. -/
def runArgsFactory (c : Constants) (w : World) (config : Config) (workingDir : String) :
    List String :=
  let runArgs := [
    "run",
    "--rm",
    "-v", workingDir ++ ":" ++ "/repo_root",
    "-e", "PORTER_SERVICE_NAME=" ++ config.ServiceName,
    "-e", "DOCKER_ENV_FILE=" ++ c.EnvFile,
    "-e", "HAPROXY_STATS_USERNAME=" ++ c.HAProxyStatsUsername,
    "-e", "HAPROXY_STATS_PASSWORD=" ++ c.HAProxyStatsPassword,
    "-e", "HAPROXY_STATS_URL=" ++ c.HAProxyStatsUrl]
  let runArgs :=
    match w.revParse with
    | some revParseOutput =>
      runArgs ++ ["-e", "PORTER_SERVICE_VERSION=" ++ w.TrimSpace revParseOutput]
    | none => runArgs
  w.Environ.foldl
    (fun runArgs kvp =>
      if "PORTER_".isPrefixOf kvp then
        runArgs ++ ["-e", kvp.drop "PORTER_".length]
      else runArgs)
    runArgs

/-- One `runConfigHooks` pass started by the coordinator: the argument list it
was given and what it does. -/
structure Pass where
  runArgs : List String
  result : PassResult
deriving DecidableEq, Repr

/-- The entries appended to `runArgs` for one region. -/
def regionRunArgs (environment : String) (region : ConfRegion) (credValue : Credentials)
    (elbDNS : String) (pr : Region) : List String :=
  let runArgs := [
    "-e", "PORTER_ENVIRONMENT=" ++ environment,
    "-e", "AWS_REGION=" ++ region.Name,
    "-e", "AWS_DEFAULT_REGION=" ++ region.Name,
    "-e", "AWS_ACCESS_KEY_ID=" ++ credValue.AccessKeyID,
    "-e", "AWS_SECRET_ACCESS_KEY=" ++ credValue.SecretAccessKey,
    "-e", "AWS_SESSION_TOKEN=" ++ credValue.SessionToken,
    "-e", "AWS_SECURITY_TOKEN=" ++ credValue.SessionToken]
  let runArgs :=
    if elbDNS ≠ "" then
      runArgs ++ ["-e", "AWS_ELASTICLOADBALANCING_LOADBALANCER_DNS=" ++ elbDNS]
    else runArgs
  if pr.StackId ≠ "" then
    runArgs ++ ["-e", "AWS_CLOUDFORMATION_STACKID=" ++ pr.StackId]
  else runArgs

/-- The execution context of one region, as the body of the loop
`for _, pr := range provisionedRegions` resolves it: the region-specific
argument entries, or `none` where the body executes `return`. -/
def resolveRegion (w : World) (env : Environment) (environment : String) (pr : Region) :
    Option (List String) :=
  match env.GetRegion pr.AWSRegion with
  | none => none
  | some region =>
    match env.GetRoleARN region.Name with
    | none => none
    | some roleARN =>
      let elbDNS : Option String :=
        if pr.ProvisionedELBName ≠ "" then
          match w.DescribeLoadBalancers region.Name roleARN pr.ProvisionedELBName with
          | none => none
          | some output =>
            match output with
            | [dns] => some dns
            | _ => some ""
        else some ""
      match elbDNS with
      | none => none
      | some elbDNS =>
        let credValue := w.CredentialsGet region.Name roleARN
        some (regionRunArgs environment region credValue elbDNS pr)

/-- The loop `for _, pr := range provisionedRegions`, with `started` the
argument lists of the passes whose goroutine has been started: the base
arguments followed by the region's entries.  `Except.error` is the `return` of
the body, with the passes started before it. -/
def launchRegions (c : Constants) (w : World) (config : Config) (env : Environment)
    (workingDir environment : String) :
    List Region → List (List String) → Except (List (List String)) (List (List String))
  | [], started => Except.ok started
  | pr :: rest, started =>
    match resolveRegion w env environment pr with
    | none => Except.error started
    | some regionArgs =>
      let runArgs := runArgsFactory c w config workingDir
      let runArgs := runArgs ++ regionArgs
      launchRegions c w config env workingDir environment rest (started ++ [runArgs])

/-- The passes of the region goroutines when no run-output capture is requested.
The runners then share nothing a pass writes, so each pass runs on its own:
pass `i` is `runConfigHooks` with the hook outcomes `exec i` and the scheduler
`sched i`. -/
def separatePasses (c : Constants) (recv : regionHookRunner) (configHooks : List Hook)
    (exec : Nat → Nat → Hook → List String → HookOutcome) (sched : Nat → Nat → Nat)
    (started : List (List String)) : List Pass :=
  started.enum.map (fun p =>
    { runArgs := p.2
      result := runConfigHooks c recv (exec p.1) (sched p.1) configHooks p.2 })

/-! ### Region passes that share the run-output channel

With capture requested every runner holds the caller's one pointer
(`hook.go:204`).  Each pass stores a fresh channel through it (`:321`) and every
hook sends through it (`:443`) before it sends on `successChan`; nothing
receives from these channels while `ExecuteWithRunCapture` runs.  So a send
goes to the channel stored last, and blocks for ever once that channel is full.
The passes are therefore run together, one step at a time. -/

/-- A hook goroutine that has been started and has not yet sent on
`successChan`: the buffers it still has to send on the run-output channel, its
result, and whether it is blocked on a full run-output channel. -/
structure Goroutine where
  node : hookLinkedList
  toSend : List String
  success : Bool
  blocked : Bool
deriving DecidableEq, Repr

/-- Where the goroutine running `runConfigHooks` stands: before the selection
loop, at the head of the batch loop, inside a barrier with `left` receives to
go, or returned. -/
inductive Ctl where
  | start
  | loop (nodes : List hookLinkedList)
  | barrier (left : Nat) (rest : List hookLinkedList)
  | returned (success : Bool)
deriving DecidableEq, Repr

/-- One region pass in progress.  In `st`, `pending` holds the results offered
on `successChan` and not yet received. -/
structure PassProc where
  runArgs : List String
  ctl : Ctl
  st : LoopState
  running : List Goroutine
  sent : List String
deriving DecidableEq, Repr

/-- The passes in progress and `room`, the free places of the channel the shared
pointer holds. -/
structure FanOut where
  room : Nat
  passes : List PassProc
deriving DecidableEq, Repr

/-- Whether the goroutine running `runConfigHooks` can move: a receive needs a
result on offer. -/
def ctlEnabled (p : PassProc) : Bool :=
  match p.ctl with
  | Ctl.returned _ => false
  | Ctl.barrier (_ + 1) _ => !p.st.pending.isEmpty
  | _ => true

/-- One step of `runConfigHooks`: the selection loop and the `make` of the
channel; one iteration of the batch loop up to the barrier; one receive of the
barrier; or leaving the barrier. -/
def ctlStep (c : Constants) (recv : regionHookRunner) (hooks : List Hook)
    (exec : Nat → Hook → List String → HookOutcome) (sched : Nat → Nat)
    (room : Nat) (p : PassProc) : Nat × PassProc :=
  match p.ctl with
  | Ctl.start =>
    let sel := selectHooks c recv.commandSuccess hooks
    (if recv.runOutput then sel.1 else room, { p with ctl := Ctl.loop sel.2 })
  | Ctl.loop [] => (room, { p with ctl := Ctl.returned true })
  | Ctl.loop (node :: rest) =>
    let concurrentCount := if node.hook.Concurrent then p.st.concurrentCount + 1 else 1
    let outcome := exec node.hookIndex node.hook p.runArgs
    let running := p.running ++
      [{ node := node, toSend := outcome.runOutput, success := outcome.success,
         blocked := false }]
    if barrierDue rest then
      (room,
        { p with
          ctl := Ctl.barrier concurrentCount rest
          st := { p.st with
            concurrentCount := concurrentCount
            trace := p.st.trace ++ [Event.launch node, Event.wait concurrentCount] }
          running := running })
    else
      (room,
        { p with
          ctl := Ctl.loop rest
          st := { p.st with
            concurrentCount := concurrentCount
            trace := p.st.trace ++ [Event.launch node] }
          running := running })
  | Ctl.barrier 0 rest =>
    (room,
      { p with
        ctl := Ctl.loop rest
        st := { p.st with
          concurrentCount := 0
          trace := p.st.trace ++ [Event.finished p.st.concurrentCount] } })
  | Ctl.barrier (n + 1) rest =>
    match p.st.pending[sched p.st.clock % p.st.pending.length]? with
    | none => (room, p)
    | some (node, success) =>
      let st1 : LoopState :=
        { p.st with
          pending := p.st.pending.eraseIdx (sched p.st.clock % p.st.pending.length)
          clock := p.st.clock + 1
          trace := p.st.trace ++ [Event.recv node success] }
      if !success then (room, { p with ctl := Ctl.returned false, st := st1 })
      else (room, { p with ctl := Ctl.barrier n rest, st := st1 })
  | Ctl.returned _ => (room, p)

/-- One step of the hook goroutine at position `j`: a send on the run-output
channel, which takes a free place or blocks for ever, or, with nothing left to
send, the offer of its result on `successChan`. -/
def goStep (room : Nat) (p : PassProc) (j : Nat) : Nat × PassProc :=
  match p.running[j]? with
  | none => (room, p)
  | some g =>
    if g.blocked then (room, p)
    else
      match g.toSend with
      | buffer :: rest =>
        if 0 < room then
          (room - 1,
            { p with
              running := p.running.set j { g with toSend := rest }
              sent := p.sent ++ [buffer] })
        else
          (room, { p with running := p.running.set j { g with blocked := true } })
      | [] =>
        (room,
          { p with
            running := p.running.eraseIdx j
            st := { p.st with pending := p.st.pending ++ [(g.node, g.success)] } })

/-- The steps pass `i` can take: `(i, none)` for `runConfigHooks`, `(i, some j)`
for its hook goroutine at position `j`. -/
def passActions (i : Nat) (p : PassProc) : List (Nat × Option Nat) :=
  (if ctlEnabled p then [(i, none)] else []) ++
    ((List.range p.running.length).filter
      (fun j => match p.running[j]? with
        | some g => !g.blocked
        | none => false)).map (fun j => (i, some j))

/-- The steps that can be taken in a state. -/
def FanOut.enabled (s : FanOut) : List (Nat × Option Nat) :=
  s.passes.enum.flatMap (fun ip => passActions ip.1 ip.2)

/-- One step of the passes. -/
def fanOutStep (c : Constants) (recv : regionHookRunner) (hooks : List Hook)
    (exec : Nat → Nat → Hook → List String → HookOutcome) (sched : Nat → Nat → Nat)
    (s : FanOut) (a : Nat × Option Nat) : FanOut :=
  match s.passes[a.1]? with
  | none => s
  | some p =>
    let r :=
      match a.2 with
      | none => ctlStep c recv hooks (exec a.1) (sched a.1) s.room p
      | some j => goStep s.room p j
    { room := r.1, passes := s.passes.set a.1 r.2 }

/-- The passes run until no step can be taken, `rsched` picking each step among
those that can. -/
def fanOutRun (c : Constants) (recv : regionHookRunner) (hooks : List Hook)
    (exec : Nat → Nat → Hook → List String → HookOutcome) (sched : Nat → Nat → Nat)
    (rsched : Nat → Nat) : Nat → Nat → FanOut → FanOut
  | 0, _, s => s
  | fuel + 1, clock, s =>
    match s.enabled[rsched clock % s.enabled.length]? with
    | none => s
    | some a =>
      fanOutRun c recv hooks exec sched rsched fuel (clock + 1)
        (fanOutStep c recv hooks exec sched s a)

/-- The passes at the start of the fan-out. -/
def FanOut.init (started : List (List String)) : FanOut :=
  { room := 0
    passes := started.map (fun runArgs =>
      { runArgs := runArgs, ctl := Ctl.start, st := LoopState.init, running := [], sent := [] }) }

/-- A bound on the steps of the passes: per pass two, and per eligible hook four
and one for each buffer it sends. -/
def fanOutBound (c : Constants) (recv : regionHookRunner) (hooks : List Hook)
    (exec : Nat → Nat → Hook → List String → HookOutcome)
    (started : List (List String)) : Nat :=
  (started.enum.map (fun p =>
    2 + ((selectHooks c recv.commandSuccess hooks).2.map (fun node =>
      (exec p.1 node.hookIndex node.hook p.2).runOutput.length + 4)).sum)).sum

/-- The steps a hook goroutine can still take. -/
def Goroutine.stepsLeft (g : Goroutine) : Nat :=
  if g.blocked then 0 else g.toSend.length + 2

/-- The steps the hooks not yet started can add: per hook four and one for each
buffer it sends. -/
def nodesWeight (exec : Nat → Hook → List String → HookOutcome) (runArgs : List String)
    (nodes : List hookLinkedList) : Nat :=
  (nodes.map (fun node => (exec node.hookIndex node.hook runArgs).runOutput.length + 4)).sum

/-- A bound on the steps one pass and its hook goroutines can still take. -/
def PassProc.stepsLeft (c : Constants) (recv : regionHookRunner) (hooks : List Hook)
    (exec : Nat → Hook → List String → HookOutcome) (p : PassProc) : Nat :=
  (match p.ctl with
    | Ctl.start => 2 + nodesWeight exec p.runArgs (selectHooks c recv.commandSuccess hooks).2
    | Ctl.loop nodes => 1 + nodesWeight exec p.runArgs nodes
    | Ctl.barrier _ rest => 2 + nodesWeight exec p.runArgs rest
    | Ctl.returned _ => 0)
  + (p.running.map Goroutine.stepsLeft).sum + p.st.pending.length

/-- A bound on the steps the passes can still take, the first being pass `i`. -/
def stepsLeftFrom (c : Constants) (recv : regionHookRunner) (hooks : List Hook)
    (exec : Nat → Nat → Hook → List String → HookOutcome) : Nat → List PassProc → Nat
  | _, [] => 0
  | i, p :: ps =>
    PassProc.stepsLeft c recv hooks (exec i) p + stepsLeftFrom c recv hooks exec (i + 1) ps

/-- The state the passes end in. -/
def sharedRun (c : Constants) (recv : regionHookRunner) (configHooks : List Hook)
    (exec : Nat → Nat → Hook → List String → HookOutcome) (sched : Nat → Nat → Nat)
    (rsched : Nat → Nat) (started : List (List String)) : FanOut :=
  fanOutRun c recv configHooks exec sched rsched
    (fanOutBound c recv configHooks exec started) 0 (FanOut.init started)

/-- The passes of the region goroutines when run-output capture is requested:
what each pass has done when no step is left.  A pass that has not returned
never does. -/
def sharedPasses (c : Constants) (recv : regionHookRunner) (configHooks : List Hook)
    (exec : Nat → Nat → Hook → List String → HookOutcome) (sched : Nat → Nat → Nat)
    (rsched : Nat → Nat) (started : List (List String)) : List Pass :=
  (sharedRun c recv configHooks exec sched rsched started).passes.map (fun p =>
    { runArgs := p.runArgs
      result :=
        { success :=
            match p.ctl with
            | Ctl.returned success => some success
            | _ => none
          eligibleHookCount := (selectHooks c recv.commandSuccess configHooks).1
          runOutputCap :=
            if recv.runOutput then some (selectHooks c recv.commandSuccess configHooks).1
            else none
          trace := p.st.trace
          runOutputSent := p.sent } })

/-- The passes of the region goroutines. -/
def regionPasses (c : Constants) (recv : regionHookRunner) (configHooks : List Hook)
    (exec : Nat → Nat → Hook → List String → HookOutcome) (sched : Nat → Nat → Nat)
    (rsched : Nat → Nat) (started : List (List String)) : List Pass :=
  if recv.runOutput then sharedPasses c recv configHooks exec sched rsched started
  else separatePasses c recv configHooks exec sched started

/-- The loop `for i := 0; i < len(provisionedRegions); i++` with `n` iterations
left: each iteration receives one pending region result, the one `rsched`
picks, and folds it into `success`.  `none`: a receive blocks for ever. -/
def collectRegions (rsched : Nat → Nat) :
    Nat → List Bool → Nat → Bool → List Bool → Option (Bool × List Bool)
  | 0, _, _, success, received => some (success, received)
  | n + 1, pending, clock, success, received =>
    match pending[rsched clock % pending.length]? with
    | none => none
    | some runConfigHooksSuccess =>
      collectRegions rsched n (pending.eraseIdx (rsched clock % pending.length)) (clock + 1)
        (success && runConfigHooksSuccess) (received ++ [runConfigHooksSuccess])

/-- What `ExecuteWithRunCapture` does: the value returned (`none`: it never
returns), the passes it started, and the booleans it received from region
runners, in the order received. -/
structure ExecResult where
  success : Option Bool
  passes : List Pass
  received : List Bool
deriving DecidableEq, Repr

/-- The regions the fan-out iterates over: `provisionedRegions`, or when it is
nil one region per entry of `env.Regions`. -/
def targetRegions (env : Environment) (provisionedRegions : Option (List Region)) :
    List Region :=
  match provisionedRegions with
  | some prs => prs
  | none => env.Regions.map (fun region =>
      { AWSRegion := region.Name, StackId := "", ProvisionedELBName := "" })

/-- The function `ExecuteWithRunCapture`.  `provisionedRegions = none` is the nil
slice; `runOutput` is whether the pointer passed is non-nil.  Pass `0` is the
region-less pass; with regions, pass `i` is the one of region `i`.  `rsched`
orders what the region goroutines do: the arrival of their results and, where
they share the run-output channel, their steps. -/
def ExecuteWithRunCapture (c : Constants) (w : World)
    (exec : Nat → Nat → Hook → List String → HookOutcome) (sched : Nat → Nat → Nat)
    (rsched : Nat → Nat)
    (hookName environment : String) (provisionedRegions : Option (List Region))
    (commandSuccess : Bool) (runOutput : Bool) : ExecResult :=
  match w.GetConfig with
  | none => { success := some false, passes := [], received := [] }
  | some config =>
    match w.Getwd with
    | none => { success := some false, passes := [], received := [] }
    | some workingDir =>
      match config.Hooks hookName with
      | none => { success := some true, passes := [], received := [] }
      | some configHooks =>
        if environment = "" then
          let runArgs := runArgsFactory c w config workingDir
          let hookRunner : regionHookRunner :=
            { runOutput := runOutput
              serviceName := config.ServiceName
              hookName := hookName
              commandSuccess := commandSuccess }
          let pass : Pass :=
            { runArgs := runArgs
              result := runConfigHooks c hookRunner (exec 0) (sched 0) configHooks runArgs }
          { success := pass.result.success, passes := [pass], received := [] }
        else
          match config.GetEnvironment environment with
          | none => { success := some false, passes := [], received := [] }
          | some env =>
            let provisionedRegions := targetRegions env provisionedRegions
            let hookRunner : regionHookRunner :=
              { runOutput := runOutput
                serviceName := config.ServiceName
                hookName := hookName
                commandSuccess := commandSuccess }
            match launchRegions c w config env workingDir environment provisionedRegions [] with
            | Except.error started =>
              { success := some false
                passes := regionPasses c hookRunner configHooks exec sched rsched started
                received := [] }
            | Except.ok started =>
              let passes := regionPasses c hookRunner configHooks exec sched rsched started
              match collectRegions rsched provisionedRegions.length
                  (passes.filterMap (fun pass => pass.result.success)) 0 true [] with
              | none => { success := none, passes := passes, received := [] }
              | some (success, received) =>
                { success := some success, passes := passes, received := received }

/-- The function `Execute`: no run-output capture. -/
def Execute (c : Constants) (w : World)
    (exec : Nat → Nat → Hook → List String → HookOutcome) (sched : Nat → Nat → Nat)
    (rsched : Nat → Nat)
    (hookName environment : String) (provisionedRegions : Option (List Region))
    (commandSuccess : Bool) : ExecResult :=
  ExecuteWithRunCapture c w exec sched rsched hookName environment provisionedRegions
    commandSuccess false

/-! ## Concrete inputs used to instantiate the theorems -/

/-- Constants with three distinct run-condition tags. -/
def demoConstants : Constants :=
  { HRC_Fail := "fail", HRC_Pass := "pass", HRC_Always := "always", TempDir := "/tmp",
    EnvFile := "env", HAProxyStatsUsername := "u", HAProxyStatsPassword := "p",
    HAProxyStatsUrl := "url" }

/-- A local hook with the given flag and run-condition. -/
def demoHook (concurrent : Bool) (runCondition : String) : Hook :=
  { Repo := "", Ref := "", Dockerfile := "Dockerfile", Environment := [],
    Concurrent := concurrent, RunCondition := runCondition }

/-- A runner for the lifecycle point "pre" with the given parent outcome. -/
def demoRunner (commandSuccess : Bool) : regionHookRunner :=
  { runOutput := false, serviceName := "svc", hookName := "pre",
    commandSuccess := commandSuccess }

/-- Every hook succeeds and sends nothing on the run-output channel. -/
def demoExecOK : Nat → Hook → List String → HookOutcome :=
  fun _ _ _ => { success := true, runOutput := [] }

/-- The hook at position `k` fails, the others succeed. -/
def demoExecFailAt (k : Nat) : Nat → Hook → List String → HookOutcome :=
  fun hookIndex _ _ => { success := hookIndex != k, runOutput := [] }

/-- The sequence `[f1(false), f2(true), f3(true), f4(false)]`, all tagged "always". -/
def demoHooks4 : List Hook :=
  [demoHook false "always", demoHook true "always", demoHook true "always",
   demoHook false "always"]

/-- External commands that succeed or fail as told; `docker run` succeeds and
prints "out"; the process environment is empty; no other goroutine writes the
argument array. -/
def demoExternal (cloneOK buildOK : Bool) : External :=
  { getenv := fun _ => ""
    pathJoin := fun a b => a ++ "/" ++ b
    gitClone := fun _ _ _ => cloneOK
    dockerBuild := fun _ _ => buildOK
    dockerRun := fun _ => (true, "out")
    argsRead := fun runArgs => runArgs }

/-- A hook cloned from a repository. -/
def demoRemoteHook : Hook :=
  { Repo := "https://example.com/hook.git", Ref := "v1", Dockerfile := "",
    Environment := [], Concurrent := false, RunCondition := "always" }

/-- A runner for the lifecycle point "pre" whose caller asked for run-output
capture. -/
def demoCaptureRunner : regionHookRunner :=
  { runOutput := true, serviceName := "svc", hookName := "pre", commandSuccess := true }

/-- One invocation of the local hook at position 0 by the runner for "pre". -/
def demoInvocation : Invocation :=
  { recv := demoRunner true, hookIndex := 0, hook := demoHook false "always", runArgs := [] }

/-- An environment whose every region and role resolves. -/
def demoEnvironment : Environment :=
  { Regions := []
    GetRegion := fun name => some { Name := name }
    GetRoleARN := fun _ => some "arn:aws:iam::1:role/porter" }

/-- A configuration with one hook for the lifecycle point "pre" and one
environment, "dev". -/
def demoConfig : Config :=
  { ServiceName := "svc"
    Hooks := fun hookName => if hookName = "pre" then some [demoHook false "always"] else none
    GetEnvironment := fun environment =>
      if environment = "dev" then some demoEnvironment else none }

/-- Collaborators that all answer without error. -/
def demoWorld : World :=
  { GetConfig := some demoConfig
    Getwd := some "/work"
    revParse := none
    TrimSpace := fun s => s
    Environ := []
    DescribeLoadBalancers := fun _ _ _ => some []
    CredentialsGet := fun _ _ =>
      { AccessKeyID := "id", SecretAccessKey := "secret", SessionToken := "token" } }

/-- Two provisioned regions. -/
def demoRegions : List Region :=
  [{ AWSRegion := "us-east-1", StackId := "", ProvisionedELBName := "" },
   { AWSRegion := "us-west-2", StackId := "", ProvisionedELBName := "" }]

/-- Hook outcomes per pass: every hook of pass 1 fails, all others succeed. -/
def demoExecSecondFails : Nat → Nat → Hook → List String → HookOutcome :=
  fun pass _ _ _ => { success := pass != 1, runOutput := [] }

/-- A local hook that declares the environment entry `WHO`. -/
def demoEnvHook (concurrent : Bool) (who : String) : Hook :=
  { Repo := "", Ref := "", Dockerfile := "Dockerfile", Environment := [("WHO", who)],
    Concurrent := concurrent, RunCondition := "always" }

/-- Hook outcomes per pass: every hook succeeds and sends the buffer "out" on
the run-output channel. -/
def demoExecCapture : Nat → Nat → Hook → List String → HookOutcome :=
  fun _ _ _ _ => { success := true, runOutput := ["out"] }

/-! ## Reading names and environments -/

/-- The number a list of decimal digits denotes. -/
def decimalValue (l : List Char) : Nat :=
  l.foldl (fun a ch => 10 * a + (ch.toNat - 48)) 0

/-- The assignments of a hook's environment after resolution, in the words of
the specification: a declared value when it is not empty, the value of the
process environment for the key when it is. -/
def resolvedAssignments (getenv : String → String) (env : List (String × String)) :
    List (String × String) :=
  env.map (fun kv => (kv.1, if kv.2 = "" then getenv kv.1 else kv.2))

/-! ## Hook selection -/

theorem selectLoop_eq (c : Constants) (s : Bool) (L : List Hook) :
    ∀ (i n : Nat) (chain : List hookLinkedList),
      selectLoop c s L i (n, chain) =
        (n + (L.filter (eligible c s)).length,
         chain ++ ((L.enumFrom i).filter (fun p => eligible c s p.2)).map
           (fun p => ({ hook := p.2, hookIndex := p.1 } : hookLinkedList))) := by
  induction L with
  | nil => intro i n chain; simp [selectLoop]
  | cons h L ih =>
    intro i n chain
    by_cases hs : skipped c s h = true
    · have he : eligible c s h = false := by
        cases s <;> simp_all [skipped, eligible]
      simp [selectLoop, hs, ih, List.enumFrom_cons, List.filter_cons, he]
    · have he : eligible c s h = true := by
        cases s <;> simp_all [skipped, eligible]
      simp [selectLoop, hs, ih, List.enumFrom_cons, List.filter_cons, he]
      omega

theorem selectHooks_eq (c : Constants) (s : Bool) (L : List Hook) :
    selectHooks c s L =
      ((L.filter (eligible c s)).length,
       (L.enum.filter (fun p => eligible c s p.2)).map
         (fun p => ({ hook := p.2, hookIndex := p.1 } : hookLinkedList))) := by
  simp [selectHooks, selectLoop_eq, List.enum]

theorem mem_enum_filter_map {c : Constants} {s : Bool} {L : List Hook} {i : Nat} {h : Hook} :
    ({ hook := h, hookIndex := i } : hookLinkedList) ∈
        (L.enum.filter (fun p => eligible c s p.2)).map
          (fun p => ({ hook := p.2, hookIndex := p.1 } : hookLinkedList)) ↔
      L[i]? = some h ∧ eligible c s h = true := by
  simp only [List.mem_map, List.mem_filter, Prod.exists, hookLinkedList.mk.injEq]
  constructor
  · rintro ⟨a, b, ⟨hm, he⟩, hb, ha⟩
    subst hb ha
    exact ⟨(List.mk_mem_enum_iff_getElem?).1 hm, he⟩
  · rintro ⟨hm, he⟩
    exact ⟨i, h, ⟨(List.mk_mem_enum_iff_getElem?).2 hm, he⟩, rfl, rfl⟩

/-- C1: the eligible chain built by `runConfigHooks` is the configured list
filtered by the run-condition test, in order, each node carrying the position of
its hook in the configured list; `eligibleHookCount` is the number of hooks that
pass the test; and a hook tagged `HRC_Always` is always in the chain. -/
theorem C1_selection_spec (c : Constants) (recv : regionHookRunner)
    (exec : Nat → Hook → List String → HookOutcome) (sched : Nat → Nat)
    (L : List Hook) (runArgs : List String)
    (hF : c.HRC_Always ≠ c.HRC_Fail) (hP : c.HRC_Always ≠ c.HRC_Pass) :
    (selectHooks c recv.commandSuccess L).2 =
        (L.enum.filter (fun p => eligible c recv.commandSuccess p.2)).map
          (fun p => ({ hook := p.2, hookIndex := p.1 } : hookLinkedList))
      ∧ ((selectHooks c recv.commandSuccess L).2.map (fun node => node.hook)).Sublist L
      ∧ (∀ node ∈ (selectHooks c recv.commandSuccess L).2,
          L[node.hookIndex]? = some node.hook)
      ∧ (runConfigHooks c recv exec sched L runArgs).eligibleHookCount =
          (L.filter (eligible c recv.commandSuccess)).length
      ∧ (runConfigHooks c recv exec sched L runArgs).eligibleHookCount =
          (selectHooks c recv.commandSuccess L).2.length
      ∧ (∀ (i : Nat) (h : Hook), L[i]? = some h → h.RunCondition = c.HRC_Always →
          ({ hook := h, hookIndex := i } : hookLinkedList) ∈
            (selectHooks c recv.commandSuccess L).2) := by
  refine ⟨by rw [selectHooks_eq], ?_, ?_, ?_, ?_, ?_⟩
  · rw [selectHooks_eq]
    have : ((L.enum.filter (fun p => eligible c recv.commandSuccess p.2)).map
        (fun p => ({ hook := p.2, hookIndex := p.1 } : hookLinkedList))).map
          (fun node => node.hook) = L.filter (eligible c recv.commandSuccess) := by
      rw [List.map_map]
      have h1 : ((fun node : hookLinkedList => node.hook) ∘
          (fun p : Nat × Hook => ({ hook := p.2, hookIndex := p.1 } : hookLinkedList))) =
          Prod.snd := rfl
      rw [h1]
      have h2 : (fun p : Nat × Hook => eligible c recv.commandSuccess p.2) =
          (eligible c recv.commandSuccess) ∘ Prod.snd := rfl
      rw [h2, ← List.filter_map, List.enum_map_snd]
    rw [this]
    exact List.filter_sublist L
  · intro node hn
    rw [selectHooks_eq] at hn
    exact (mem_enum_filter_map.1 hn).1
  · simp [runConfigHooks, selectHooks_eq]
  · simp only [runConfigHooks, selectHooks_eq, List.length_map]
    rw [← List.countP_eq_length_filter, ← List.countP_eq_length_filter]
    have h2 : (fun p : Nat × Hook => eligible c recv.commandSuccess p.2) =
        (eligible c recv.commandSuccess) ∘ Prod.snd := rfl
    rw [h2, ← List.countP_map, List.enum_map_snd]
  · intro i h hi hA
    rw [selectHooks_eq]
    refine mem_enum_filter_map.2 ⟨hi, ?_⟩
    cases hs : recv.commandSuccess <;> simp [eligible, hA, hF, hP]

/-- C1 at a concrete input: with tags "always", "fail", "pass" and a failed
parent, the hook tagged "pass" is dropped and the others keep their positions. -/
theorem C1_selection_spec_witness :
    ("always" ≠ "fail" ∧ "always" ≠ "pass") ∧
    (selectHooks ⟨"fail", "pass", "always", "", "", "", "", ""⟩ false
        [⟨"", "", "D", [], false, "pass"⟩, ⟨"", "", "D", [], false, "always"⟩,
         ⟨"", "", "D", [], true, "fail"⟩]).2 =
      [⟨⟨"", "", "D", [], false, "always"⟩, 1⟩, ⟨⟨"", "", "D", [], true, "fail"⟩, 2⟩] :=
  ⟨⟨by decide, by decide⟩,
   ((C1_selection_spec ⟨"fail", "pass", "always", "", "", "", "", ""⟩
      ⟨false, "svc", "pre", false⟩ (fun _ _ _ => ⟨true, []⟩) (fun _ => 0)
      [⟨"", "", "D", [], false, "pass"⟩, ⟨"", "", "D", [], false, "always"⟩,
       ⟨"", "", "D", [], true, "fail"⟩] [] (by decide) (by decide)).1).trans (by decide)⟩

/-! ## Traces -/

theorem launched_append (a b : List Event) : launched (a ++ b) = launched a ++ launched b := by
  induction a with
  | nil => rfl
  | cons e a ih => cases e <;> simp [launched, ih]

theorem collected_append (a b : List Event) :
    collected (a ++ b) = collected a ++ collected b := by
  induction a with
  | nil => rfl
  | cons e a ih => cases e <;> simp [collected, ih]

theorem launched_map_launch (l : List hookLinkedList) : launched (l.map Event.launch) = l := by
  induction l with
  | nil => rfl
  | cons x l ih => simp [launched, ih]

theorem collected_map_launch (l : List hookLinkedList) :
    collected (l.map Event.launch) = [] := by
  induction l with
  | nil => rfl
  | cons x l ih => simp [collected, ih]

theorem launched_recvEvents (rs : List (hookLinkedList × Bool)) :
    launched (recvEvents rs) = [] := by
  induction rs with
  | nil => rfl
  | cons x l ih => simpa [recvEvents, launched] using ih

theorem collected_recvEvents (rs : List (hookLinkedList × Bool)) :
    collected (recvEvents rs) = rs.map Prod.fst := by
  induction rs with
  | nil => rfl
  | cons x l ih => simpa [recvEvents, collected] using ih

theorem sinceBarrierFrom_append (a b : List Event) :
    ∀ cur, sinceBarrierFrom (a ++ b) cur = sinceBarrierFrom b (sinceBarrierFrom a cur) := by
  induction a with
  | nil => intro cur; rfl
  | cons e a ih => intro cur; cases e <;> simp [sinceBarrierFrom, ih]

theorem sinceBarrierFrom_map_launch (l : List hookLinkedList) :
    ∀ cur, sinceBarrierFrom (l.map Event.launch) cur = cur ++ l := by
  induction l with
  | nil => intro cur; simp [sinceBarrierFrom]
  | cons x l ih => intro cur; simp [sinceBarrierFrom, ih]

theorem sinceBarrierFrom_recvEvents (rs : List (hookLinkedList × Bool)) :
    ∀ cur, sinceBarrierFrom (recvEvents rs) cur = cur := by
  induction rs with
  | nil => intro cur; rfl
  | cons x l ih => intro cur; simpa [recvEvents, sinceBarrierFrom] using ih cur

theorem batchesFrom_map_launch (l : List hookLinkedList) (tr : List Event) :
    ∀ cur, batchesFrom (l.map Event.launch ++ tr) cur = batchesFrom tr (cur ++ l) := by
  induction l with
  | nil => intro cur; simp
  | cons x l ih => intro cur; simp [batchesFrom, ih]

theorem batchesFrom_recvEvents (rs : List (hookLinkedList × Bool)) (tr : List Event) :
    ∀ cur, batchesFrom (recvEvents rs ++ tr) cur = batchesFrom tr cur := by
  induction rs with
  | nil => intro cur; rfl
  | cons x l ih => intro cur; simpa [recvEvents, batchesFrom] using ih cur

theorem traceOK_nil : TraceOK [] := by
  intro pre e post h
  simp at h

theorem traceOK_snoc {tr : List Event} {e : Event} (h : TraceOK tr) (he : barrierOK tr e) :
    TraceOK (tr ++ [e]) := by
  intro pre e1 post hsplit
  rcases List.append_eq_append_iff.1 hsplit with ⟨a, ha, hb⟩ | ⟨a, ha, hb⟩
  · cases a with
    | nil =>
      simp at hb ha
      obtain ⟨rfl, rfl⟩ := hb
      subst ha
      exact he
    | cons x a =>
      have := congrArg List.length hb
      simp at this
  · cases a with
    | nil =>
      simp at hb ha
      obtain ⟨rfl, rfl⟩ := hb
      subst ha
      exact he
    | cons x a =>
      simp at hb
      obtain ⟨rfl, hpost⟩ := hb
      exact h pre e1 a ha

/-! ## The barrier -/

theorem perm_cons_eraseIdx {α : Type} : ∀ (l : List α) (i : Nat) (h : i < l.length),
    (l[i] :: l.eraseIdx i).Perm l := by
  intro l
  induction l with
  | nil => intro i h; simp at h
  | cons x l ih =>
    intro i h
    cases i with
    | zero => simp
    | succ i =>
      have hi : i < l.length := by simpa using h
      simp only [List.getElem_cons_succ, List.eraseIdx_cons_succ]
      exact (List.Perm.swap x l[i] (l.eraseIdx i)).trans ((ih i hi).cons x)

theorem waitLoop_spec (sched : Nat → Nat) :
    ∀ (n : Nat) (s : LoopState), s.pending.length = n →
      ∃ rs : List (hookLinkedList × Bool),
        ((∀ p ∈ s.pending, p.2 = true) ∧ rs.Perm s.pending ∧
          waitLoop sched n s = Flow.continue
            { concurrentCount := s.concurrentCount, pending := [], clock := s.clock + n,
              trace := s.trace ++ recvEvents rs })
        ∨ ((∃ p ∈ s.pending, p.2 = false) ∧
          ∃ s1, waitLoop sched n s = Flow.returned false s1 ∧
            s1.trace = s.trace ++ recvEvents rs) := by
  intro n
  induction n with
  | zero =>
    intro s hs
    refine ⟨[], Or.inl ⟨?_, ?_, ?_⟩⟩
    · have : s.pending = [] := List.length_eq_zero.1 hs
      simp [this]
    · have : s.pending = [] := List.length_eq_zero.1 hs
      simp [this]
    · have : s.pending = [] := List.length_eq_zero.1 hs
      cases s
      simp_all [waitLoop, recvEvents]
  | succ n ih =>
    intro s hs
    have hlt : sched s.clock % s.pending.length < s.pending.length :=
      Nat.mod_lt _ (by omega)
    have hget : s.pending[sched s.clock % s.pending.length]? =
        some (s.pending[sched s.clock % s.pending.length]) := List.getElem?_eq_getElem hlt
    have hperm := perm_cons_eraseIdx s.pending _ hlt
    have hmem : s.pending[sched s.clock % s.pending.length] ∈ s.pending :=
      List.getElem_mem hlt
    generalize hp : s.pending[sched s.clock % s.pending.length] = p at hget hperm hmem
    obtain ⟨node, b⟩ := p
    cases b with
    | false =>
      refine ⟨[(node, false)], Or.inr ⟨⟨(node, false), hmem, rfl⟩, ?_⟩⟩
      simp [waitLoop, hget, recvEvents]
    | true =>
      have hlen : (s.pending.eraseIdx (sched s.clock % s.pending.length)).length = n := by
        rw [List.length_eraseIdx_of_lt hlt]; omega
      rcases ih
        { s with
          pending := s.pending.eraseIdx (sched s.clock % s.pending.length)
          clock := s.clock + 1
          trace := s.trace ++ [Event.recv node true] } hlen with ⟨rs, h | h⟩
      · obtain ⟨hall, hrs, hw⟩ := h
        refine ⟨(node, true) :: rs, Or.inl ⟨?_, ?_, ?_⟩⟩
        · intro q hq
          rcases List.mem_cons.1 (hperm.symm.subset hq) with rfl | hq1
          · rfl
          · exact hall q hq1
        · exact (hrs.cons _).trans hperm
        · simp only [waitLoop, hget, Bool.not_true, Bool.false_eq_true, if_false]
          rw [hw]
          simp [recvEvents, Nat.add_assoc, Nat.add_comm 1 n]
      · obtain ⟨⟨q, hq, hqf⟩, s1, hw, ht⟩ := h
        refine ⟨(node, true) :: rs, Or.inr ⟨⟨q, List.eraseIdx_subset _ _ hq, hqf⟩, s1, ?_, ?_⟩⟩
        · simp only [waitLoop, hget, Bool.not_true, Bool.false_eq_true, if_false]
          exact hw
        · rw [ht]
          simp [recvEvents]

/-! ## The batch loop -/

theorem batchLoop_launches (exec : hookLinkedList → HookOutcome) (sched : Nat → Nat) :
    ∀ (tl : List hookLinkedList) (node : hookLinkedList) (rest : List hookLinkedList)
      (s : LoopState) (cc : Nat),
      (∀ t ∈ tl, t.hook.Concurrent = true) → barrierDue rest = true →
      cc = (if node.hook.Concurrent then s.concurrentCount + 1 else 1) + tl.length →
      batchLoop exec sched (node :: (tl ++ rest)) s =
        match waitLoop sched cc
            { concurrentCount := cc
              pending := s.pending ++ (node :: tl).map (fun n => (n, (exec n).success))
              clock := s.clock
              trace := s.trace ++ ((node :: tl).map Event.launch ++ [Event.wait cc]) } with
        | Flow.continue s2 =>
          batchLoop exec sched rest
            { s2 with concurrentCount := 0, trace := s2.trace ++ [Event.finished cc] }
        | other => other := by
  intro tl
  induction tl with
  | nil =>
    intro node rest s cc _ hrest hcc
    subst hcc
    simp [batchLoop, hrest]
  | cons t tl ih =>
    intro node rest s cc htl hrest hcc
    have ht : t.hook.Concurrent = true := htl t (List.mem_cons_self _ _)
    have hb : barrierDue (t :: (tl ++ rest)) = false := by simp [barrierDue, ht]
    rw [List.cons_append, batchLoop]
    simp only [hb, Bool.false_eq_true, if_false]
    rw [ih t rest _ cc (fun x hx => htl x (List.mem_cons_of_mem _ hx)) hrest
      (by subst hcc; simp [ht]; omega)]
    simp

theorem barrierDue_dropWhile (l : List hookLinkedList) :
    barrierDue (l.dropWhile (fun n => n.hook.Concurrent)) = true := by
  induction l with
  | nil => rfl
  | cons x l ih =>
    by_cases hx : x.hook.Concurrent = true
    · simpa [List.dropWhile_cons, hx] using ih
    · simp [List.dropWhile_cons, hx, barrierDue]

theorem batchLoop_run (exec : hookLinkedList → HookOutcome) (sched : Nat → Nat) :
    ∀ (k : Nat) (nodes : List hookLinkedList) (s : LoopState), nodes.length ≤ k →
      s.pending = [] → s.concurrentCount = 0 →
      ∃ (evs : List Event) (r : Bool),
        BatchRun (fun n => (exec n).success) nodes evs r ∧
        (batchLoop exec sched nodes s).result.1 = some r ∧
        (batchLoop exec sched nodes s).result.2.trace = s.trace ++ evs := by
  intro k
  induction k with
  | zero =>
    intro nodes s hk _ _
    have : nodes = [] := List.length_eq_zero.1 (Nat.le_zero.1 hk)
    subst this
    exact ⟨[], true, BatchRun.done, by simp [batchLoop, Flow.result],
      by simp [batchLoop, Flow.result]⟩
  | succ k ih =>
    intro nodes s hk hp hc
    cases nodes with
    | nil =>
      exact ⟨[], true, BatchRun.done, by simp [batchLoop, Flow.result],
        by simp [batchLoop, Flow.result]⟩
    | cons node nodes1 =>
      obtain ⟨tl, rest, hsplit, htl, hrest⟩ :
          ∃ tl rest, nodes1 = tl ++ rest ∧ (∀ t ∈ tl, t.hook.Concurrent = true) ∧
            barrierDue rest = true :=
        ⟨nodes1.takeWhile (fun n => n.hook.Concurrent),
         nodes1.dropWhile (fun n => n.hook.Concurrent),
         (List.takeWhile_append_dropWhile _ _).symm,
         fun t ht => by simpa using (List.mem_takeWhile_imp ht),
         barrierDue_dropWhile nodes1⟩
      subst hsplit
      have hlen : rest.length ≤ k := by
        simp at hk; omega
      rw [batchLoop_launches exec sched tl node rest s (tl.length + 1) htl hrest
        (by simp [hc]; omega)]
      rcases waitLoop_spec sched (tl.length + 1)
          { concurrentCount := tl.length + 1
            pending := s.pending ++ (node :: tl).map (fun n => (n, (exec n).success))
            clock := s.clock
            trace := s.trace ++ ((node :: tl).map Event.launch ++ [Event.wait (tl.length + 1)]) }
          (by simp [hp]) with ⟨rs, h | h⟩
      · obtain ⟨hall, hrs, hw⟩ := h
        rw [hw]
        obtain ⟨evs, r, hrun, hres, htr⟩ := ih rest
          { concurrentCount := 0, pending := [], clock := s.clock + (tl.length + 1),
            trace := s.trace ++ ((node :: tl).map Event.launch ++ [Event.wait (tl.length + 1)]) ++
              recvEvents rs ++ [Event.finished (tl.length + 1)] } hlen rfl rfl
        refine ⟨(node :: tl).map Event.launch ++ Event.wait (tl.length + 1) ::
          (recvEvents rs ++ Event.finished (tl.length + 1) :: evs), r, ?_, ?_, ?_⟩
        · refine BatchRun.pass node tl rest rs evs r htl hrest ?_ ?_ hrun
          · intro n hn
            have := hall (n, (exec n).success) (by
              simp only [hp, List.nil_append, List.mem_map]
              exact ⟨n, hn, rfl⟩)
            simpa using this
          · have := hrs.map Prod.fst
            simpa [hp, Function.comp_def] using this
        · exact hres
        · simp only [htr]
          simp
      · obtain ⟨⟨q, hq, hqf⟩, s1, hw, ht⟩ := h
        rw [hw]
        refine ⟨(node :: tl).map Event.launch ++ Event.wait (tl.length + 1) :: recvEvents rs,
          false, ?_, ?_, ?_⟩
        · refine BatchRun.fail node tl rest rs htl hrest ?_
          simp only [hp, List.nil_append, List.mem_map] at hq
          obtain ⟨n, hn, rfl⟩ := hq
          exact ⟨n, hn, hqf⟩
        · simp [Flow.result]
        · simp [Flow.result, ht]

/-! ## What a batch run looks like -/

theorem planBatches_cons : ∀ (tl : List hookLinkedList) (node : hookLinkedList)
    (rest : List hookLinkedList), (∀ t ∈ tl, t.hook.Concurrent = true) →
    barrierDue rest = true →
    planBatches (node :: (tl ++ rest)) = (node :: tl) :: planBatches rest := by
  intro tl
  induction tl with
  | nil =>
    intro node rest _ hrest
    cases rest with
    | nil => simp [planBatches]
    | cons next r =>
      have : next.hook.Concurrent = false := by simpa [barrierDue] using hrest
      simp [planBatches, this]
  | cons t tl ih =>
    intro node rest htl hrest
    have ht : t.hook.Concurrent = true := htl t (List.mem_cons_self _ _)
    have := ih t rest (fun x hx => htl x (List.mem_cons_of_mem _ hx)) hrest
    rw [List.cons_append, planBatches]
    simp only [ht, if_true]
    rw [this]

theorem BatchRun.result_eq {ok : hookLinkedList → Bool} {nodes : List hookLinkedList}
    {evs : List Event} {r : Bool} (h : BatchRun ok nodes evs r) : r = nodes.all ok := by
  induction h with
  | done => rfl
  | pass node tl rest rs evs r _ _ hall _ _ ih =>
    have h1 : (node :: tl).all ok = true := List.all_eq_true.2 hall
    rw [← List.cons_append, List.all_append, h1, ← ih]
    rfl
  | fail node tl rest rs _ _ hex =>
    obtain ⟨n, hn, hf⟩ := hex
    have h1 : (node :: tl).all ok = false := by
      rw [List.all_eq_false]
      exact ⟨n, hn, by simp [hf]⟩
    rw [← List.cons_append, List.all_append, h1]
    rfl

theorem BatchRun.batches_eq {ok : hookLinkedList → Bool} {nodes : List hookLinkedList}
    {evs : List Event} {r : Bool} (h : BatchRun ok nodes evs r) :
    batchesFrom evs [] = ranBatches ok (planBatches nodes) := by
  induction h with
  | done => rfl
  | pass node tl rest rs evs r htl hrest hall _ _ ih =>
    have h1 : (node :: tl).all ok = true := List.all_eq_true.2 hall
    rw [planBatches_cons tl node rest htl hrest, batchesFrom_map_launch]
    simp only [List.nil_append, batchesFrom, batchesFrom_recvEvents, ranBatches, h1, if_true, ih]
  | fail node tl rest rs htl hrest hex =>
    obtain ⟨n, hn, hf⟩ := hex
    have h1 : (node :: tl).all ok = false := by
      rw [List.all_eq_false]
      exact ⟨n, hn, by simp [hf]⟩
    rw [planBatches_cons tl node rest htl hrest, batchesFrom_map_launch]
    have h2 : batchesFrom (recvEvents rs) [] = [] := by
      simpa [batchesFrom] using batchesFrom_recvEvents rs [] []
    simp [batchesFrom, ranBatches, h1, h2]

theorem BatchRun.launched_eq {ok : hookLinkedList → Bool} {nodes : List hookLinkedList}
    {evs : List Event} {r : Bool} (h : BatchRun ok nodes evs r) :
    launched evs = (ranBatches ok (planBatches nodes)).flatten := by
  induction h with
  | done => rfl
  | pass node tl rest rs evs r htl hrest hall _ _ ih =>
    have h1 : (node :: tl).all ok = true := List.all_eq_true.2 hall
    rw [planBatches_cons tl node rest htl hrest, launched_append, launched_map_launch]
    simp only [launched, launched_append, launched_recvEvents, List.nil_append, ranBatches, h1,
      if_true, List.flatten_cons, ih]
  | fail node tl rest rs htl hrest hex =>
    obtain ⟨n, hn, hf⟩ := hex
    have h1 : (node :: tl).all ok = false := by
      rw [List.all_eq_false]
      exact ⟨n, hn, by simp [hf]⟩
    rw [planBatches_cons tl node rest htl hrest, launched_append, launched_map_launch]
    simp [launched, launched_recvEvents, ranBatches, h1]

theorem traceOK_launches (pre0 : List Event) (hs : sinceBarrier pre0 = [])
    (hp : (launched pre0).Perm (collected pre0)) :
    ∀ (b done : List hookLinkedList), TraceOK (pre0 ++ done.map Event.launch) →
      TraceOK (pre0 ++ (done ++ b).map Event.launch) := by
  intro b
  induction b with
  | nil => intro done h; simpa using h
  | cons x b ih =>
    intro done h
    have hx : barrierOK (pre0 ++ done.map Event.launch) (Event.launch x) := by
      have h1 : sinceBarrierFrom pre0 [] = [] := hs
      simp only [barrierOK, launched_append, launched_map_launch, collected_append,
        collected_map_launch, List.append_nil, sinceBarrier, sinceBarrierFrom_append, h1,
        sinceBarrierFrom_map_launch, List.nil_append]
      exact hp.append_right done
    have h2 := ih (done ++ [x]) (by simpa using traceOK_snoc h hx)
    simpa using h2

theorem traceOK_recvEvents (rs : List (hookLinkedList × Bool)) :
    ∀ tr : List Event, TraceOK tr → TraceOK (tr ++ recvEvents rs) := by
  induction rs with
  | nil => intro tr h; simpa [recvEvents] using h
  | cons x rs ih =>
    intro tr h
    have h1 : TraceOK (tr ++ [Event.recv x.1 x.2]) := traceOK_snoc h trivial
    have h2 := ih _ h1
    simpa [recvEvents] using h2

theorem BatchRun.traceOK {ok : hookLinkedList → Bool} {nodes : List hookLinkedList}
    {evs : List Event} {r : Bool} (h : BatchRun ok nodes evs r) :
    ∀ pre0 : List Event, TraceOK pre0 → sinceBarrier pre0 = [] →
      (launched pre0).Perm (collected pre0) → TraceOK (pre0 ++ evs) := by
  induction h with
  | done => intro pre0 h _ _; simpa using h
  | pass node tl rest rs evs r htl hrest hall hrs _ ih =>
    intro pre0 h0 hs hp
    have h1 : sinceBarrierFrom pre0 [] = [] := hs
    have t1 : TraceOK (pre0 ++ (node :: tl).map Event.launch) := by
      simpa using traceOK_launches pre0 hs hp (node :: tl) [] (by simpa using h0)
    have hw : barrierOK (pre0 ++ (node :: tl).map Event.launch) (Event.wait (tl.length + 1)) := by
      simp only [barrierOK, launched_append, launched_map_launch, collected_append,
        collected_map_launch, List.append_nil, sinceBarrier, sinceBarrierFrom_append, h1,
        sinceBarrierFrom_map_launch, List.nil_append, List.length_cons, true_and]
      exact hp.append_right _
    have t2 := traceOK_snoc t1 hw
    have t3 := traceOK_recvEvents rs _ t2
    have t4 : TraceOK (pre0 ++ (node :: tl).map Event.launch ++ [Event.wait (tl.length + 1)] ++
        recvEvents rs ++ [Event.finished (tl.length + 1)]) := traceOK_snoc t3 trivial
    have t5 := ih _ t4
      (by
        simp only [sinceBarrier, sinceBarrierFrom_append, sinceBarrierFrom,
          sinceBarrierFrom_recvEvents])
      (by
        simp only [launched_append, launched_map_launch, launched, launched_recvEvents,
          collected_append, collected_map_launch, collected, collected_recvEvents,
          List.append_nil]
        exact hp.append hrs.symm)
    simpa [List.append_assoc] using t5
  | fail node tl rest rs htl hrest hex =>
    intro pre0 h0 hs hp
    have h1 : sinceBarrierFrom pre0 [] = [] := hs
    have t1 : TraceOK (pre0 ++ (node :: tl).map Event.launch) := by
      simpa using traceOK_launches pre0 hs hp (node :: tl) [] (by simpa using h0)
    have hw : barrierOK (pre0 ++ (node :: tl).map Event.launch) (Event.wait (tl.length + 1)) := by
      simp only [barrierOK, launched_append, launched_map_launch, collected_append,
        collected_map_launch, List.append_nil, sinceBarrier, sinceBarrierFrom_append, h1,
        sinceBarrierFrom_map_launch, List.nil_append, List.length_cons, true_and]
      exact hp.append_right _
    have t2 := traceOK_snoc t1 hw
    have t3 := traceOK_recvEvents rs _ t2
    simpa [List.append_assoc] using t3

/-! ## The plan -/

theorem batch_induction {P : List hookLinkedList → Prop} (hnil : P [])
    (hstep : ∀ (node : hookLinkedList) (tl rest : List hookLinkedList),
      (∀ t ∈ tl, t.hook.Concurrent = true) → barrierDue rest = true → P rest →
      P (node :: (tl ++ rest))) : ∀ l, P l := by
  have key : ∀ (k : Nat) (l : List hookLinkedList), l.length ≤ k → P l := by
    intro k
    induction k with
    | zero =>
      intro l hl
      have : l = [] := List.length_eq_zero.1 (Nat.le_zero.1 hl)
      subst this
      exact hnil
    | succ k ih =>
      intro l hl
      cases l with
      | nil => exact hnil
      | cons node l1 =>
        have hsplit := (List.takeWhile_append_dropWhile (fun n => n.hook.Concurrent) l1).symm
        rw [hsplit]
        refine hstep node _ _ (fun t ht => by simpa using (List.mem_takeWhile_imp ht))
          (barrierDue_dropWhile l1) (ih _ ?_)
        have h1 := (List.dropWhile_sublist (l := l1)
          (fun n : hookLinkedList => n.hook.Concurrent)).length_le
        simp at hl
        omega
  exact fun l => key l.length l (Nat.le_refl _)

theorem planBatches_flatten : ∀ l, (planBatches l).flatten = l := by
  refine batch_induction rfl ?_
  intro node tl rest htl hrest ih
  rw [planBatches_cons tl node rest htl hrest, List.flatten_cons, ih, List.cons_append]

theorem planBatches_tail_concurrent : ∀ l, ∀ b ∈ planBatches l,
    ∃ hd tl, b = hd :: tl ∧ ∀ t ∈ tl, t.hook.Concurrent = true := by
  refine batch_induction (by simp [planBatches]) ?_
  intro node tl rest htl hrest ih b hb
  rw [planBatches_cons tl node rest htl hrest] at hb
  rcases List.mem_cons.1 hb with rfl | hb1
  · exact ⟨node, tl, rfl, htl⟩
  · exact ih b hb1

theorem planBatches_heads_of_barrierDue : ∀ l, barrierDue l = true → ∀ b ∈ planBatches l,
    ∃ hd tl, b = hd :: tl ∧ hd.hook.Concurrent = false := by
  refine batch_induction (by simp [planBatches]) ?_
  intro node tl rest htl hrest ih hdue b hb
  rw [planBatches_cons tl node rest htl hrest] at hb
  rcases List.mem_cons.1 hb with rfl | hb1
  · exact ⟨node, tl, rfl, by simpa [barrierDue] using hdue⟩
  · exact ih hrest b hb1

theorem planBatches_later_heads : ∀ l, ∀ (k : Nat) (b : List hookLinkedList),
    (planBatches l)[k + 1]? = some b → ∃ hd tl, b = hd :: tl ∧ hd.hook.Concurrent = false := by
  refine batch_induction (by simp [planBatches]) ?_
  intro node tl rest htl hrest _ k b hb
  rw [planBatches_cons tl node rest htl hrest, List.getElem?_cons_succ] at hb
  exact planBatches_heads_of_barrierDue rest hrest b (List.getElem?_mem hb)

/-! ## One pass -/

theorem runConfigHooks_run (c : Constants) (recv : regionHookRunner)
    (exec : Nat → Hook → List String → HookOutcome) (sched : Nat → Nat)
    (hooks : List Hook) (runArgs : List String) :
    ∃ r : Bool,
      BatchRun (fun n => (exec n.hookIndex n.hook runArgs).success)
        (selectHooks c recv.commandSuccess hooks).2
        (runConfigHooks c recv exec sched hooks runArgs).trace r ∧
      (runConfigHooks c recv exec sched hooks runArgs).success = some r := by
  obtain ⟨evs, r, hrun, hres, htr⟩ :=
    batchLoop_run (fun n => exec n.hookIndex n.hook runArgs) sched _
      (selectHooks c recv.commandSuccess hooks).2 LoopState.init (Nat.le_refl _) rfl rfl
  refine ⟨r, ?_, ?_⟩
  · have : (runConfigHooks c recv exec sched hooks runArgs).trace = evs := by
      simpa [runConfigHooks, LoopState.init] using htr
    rw [this]
    exact hrun
  · simpa [runConfigHooks] using hres

theorem runConfigHooks_success (c : Constants) (recv : regionHookRunner)
    (exec : Nat → Hook → List String → HookOutcome) (sched : Nat → Nat)
    (hooks : List Hook) (runArgs : List String) :
    (runConfigHooks c recv exec sched hooks runArgs).success =
      some ((selectHooks c recv.commandSuccess hooks).2.all
        (fun n => (exec n.hookIndex n.hook runArgs).success)) := by
  obtain ⟨r, hrun, hres⟩ := runConfigHooks_run c recv exec sched hooks runArgs
  rw [hres, hrun.result_eq]

theorem runConfigHooks_batches (c : Constants) (recv : regionHookRunner)
    (exec : Nat → Hook → List String → HookOutcome) (sched : Nat → Nat)
    (hooks : List Hook) (runArgs : List String) :
    batches (runConfigHooks c recv exec sched hooks runArgs).trace =
      ranBatches (fun n => (exec n.hookIndex n.hook runArgs).success)
        (planBatches (selectHooks c recv.commandSuccess hooks).2) := by
  obtain ⟨r, hrun, _⟩ := runConfigHooks_run c recv exec sched hooks runArgs
  exact hrun.batches_eq

theorem runConfigHooks_launched (c : Constants) (recv : regionHookRunner)
    (exec : Nat → Hook → List String → HookOutcome) (sched : Nat → Nat)
    (hooks : List Hook) (runArgs : List String) :
    launched (runConfigHooks c recv exec sched hooks runArgs).trace =
      (ranBatches (fun n => (exec n.hookIndex n.hook runArgs).success)
        (planBatches (selectHooks c recv.commandSuccess hooks).2)).flatten := by
  obtain ⟨r, hrun, _⟩ := runConfigHooks_run c recv exec sched hooks runArgs
  exact hrun.launched_eq

theorem ranBatches_of_all_ok (ok : hookLinkedList → Bool) :
    ∀ bs : List (List hookLinkedList), (∀ b ∈ bs, ∀ n ∈ b, ok n = true) →
      ranBatches ok bs = bs := by
  intro bs
  induction bs with
  | nil => intro _; rfl
  | cons b bs ih =>
    intro h
    have h1 : b.all ok = true := List.all_eq_true.2 (h b (List.mem_cons_self _ _))
    simp [ranBatches, h1, ih (fun b1 hb1 => h b1 (List.mem_cons_of_mem _ hb1))]

theorem mem_of_mem_planBatches {l : List hookLinkedList} {b : List hookLinkedList}
    {n : hookLinkedList} (hb : b ∈ planBatches l) (hn : n ∈ b) : n ∈ l := by
  rw [← planBatches_flatten l]
  exact List.mem_flatten.2 ⟨b, hb, hn⟩

theorem ranBatches_initial (ok : hookLinkedList → Bool) (b : List hookLinkedList)
    (post : List (List hookLinkedList)) (hb : b.all ok = false) :
    ∀ pre : List (List hookLinkedList), ranBatches ok (pre ++ b :: post) <+: pre ++ [b] := by
  intro pre
  induction pre with
  | nil => simp [ranBatches, hb]
  | cons q pre ih =>
    by_cases hq : q.all ok = true
    · simpa [ranBatches, hq, List.prefix_cons_inj] using ih
    · have : ranBatches ok (q :: pre ++ b :: post) = [q] := by
        simp only [List.cons_append, ranBatches, hq]
        rfl
      rw [this]
      exact ⟨pre ++ [b], by simp⟩

theorem flatten_initial {α : Type} {l1 l2 : List (List α)} (h : l1 <+: l2) :
    l1.flatten <+: l2.flatten := by
  obtain ⟨t, rfl⟩ := h
  exact ⟨t.flatten, by simp⟩

theorem selectHooks_nodup (c : Constants) (s : Bool) (L : List Hook) :
    (selectHooks c s L).2.Nodup := by
  rw [selectHooks_eq]
  apply List.Nodup.of_map (fun node : hookLinkedList => node.hookIndex)
  rw [List.map_map]
  have h1 : ((fun node : hookLinkedList => node.hookIndex) ∘
      (fun p : Nat × Hook => ({ hook := p.2, hookIndex := p.1 } : hookLinkedList))) =
      Prod.fst := rfl
  rw [h1]
  have h2 : ((L.enum.filter (fun p => eligible c s p.2)).map Prod.fst).Sublist
      (L.enum.map Prod.fst) := (List.filter_sublist _).map _
  rw [List.enum_map_fst] at h2
  exact h2.nodup (List.nodup_range _)

/-! ## The claims about one pass -/

/-- C2: when every eligible hook succeeds, the pass returns true and the batches
of its trace are the plan of the eligible chain: they concatenate to the chain,
every hook of a batch after its first has `Concurrent` set (so an unflagged hook
is the first of its batch), and every batch after the first starts with an
unflagged hook.  For an eligible chain `[f1(false), f2(true), f3(true),
f4(false)]` the batches are `[f1, f2, f3]` and `[f4]`. -/
theorem C2_batch_composition (c : Constants) (recv : regionHookRunner)
    (exec : Nat → Hook → List String → HookOutcome) (sched : Nat → Nat)
    (hooks : List Hook) (runArgs : List String)
    (hok : ∀ node ∈ (selectHooks c recv.commandSuccess hooks).2,
      (exec node.hookIndex node.hook runArgs).success = true) :
    (runConfigHooks c recv exec sched hooks runArgs).success = some true
      ∧ batches (runConfigHooks c recv exec sched hooks runArgs).trace =
          planBatches (selectHooks c recv.commandSuccess hooks).2
      ∧ (batches (runConfigHooks c recv exec sched hooks runArgs).trace).flatten =
          (selectHooks c recv.commandSuccess hooks).2
      ∧ (∀ b ∈ batches (runConfigHooks c recv exec sched hooks runArgs).trace,
          ∃ hd tl, b = hd :: tl ∧ ∀ t ∈ tl, t.hook.Concurrent = true)
      ∧ (∀ b ∈ batches (runConfigHooks c recv exec sched hooks runArgs).trace,
          ∀ (i : Nat) (n : hookLinkedList), b[i]? = some n → n.hook.Concurrent = false → i = 0)
      ∧ (∀ (k : Nat) (b : List hookLinkedList),
          (batches (runConfigHooks c recv exec sched hooks runArgs).trace)[k + 1]? = some b →
          ∃ hd tl, b = hd :: tl ∧ hd.hook.Concurrent = false)
      ∧ (∀ n1 n2 n3 n4 : hookLinkedList,
          (selectHooks c recv.commandSuccess hooks).2 = [n1, n2, n3, n4] →
          n1.hook.Concurrent = false → n2.hook.Concurrent = true →
          n3.hook.Concurrent = true → n4.hook.Concurrent = false →
          batches (runConfigHooks c recv exec sched hooks runArgs).trace =
            [[n1, n2, n3], [n4]]) := by
  have hb : batches (runConfigHooks c recv exec sched hooks runArgs).trace =
      planBatches (selectHooks c recv.commandSuccess hooks).2 := by
    rw [runConfigHooks_batches]
    exact ranBatches_of_all_ok _ _ (fun b hb n hn => hok n (mem_of_mem_planBatches hb hn))
  refine ⟨?_, hb, ?_, ?_, ?_, ?_, ?_⟩
  · rw [runConfigHooks_success]
    exact congrArg some (List.all_eq_true.2 hok)
  · rw [hb, planBatches_flatten]
  · rw [hb]
    exact planBatches_tail_concurrent _
  · rw [hb]
    intro b hbm i n hi hn
    obtain ⟨hd, tl, rfl, htl⟩ := planBatches_tail_concurrent _ b hbm
    cases i with
    | zero => rfl
    | succ j =>
      rw [List.getElem?_cons_succ] at hi
      have := htl n (List.getElem?_mem hi)
      rw [hn] at this
      exact absurd this (by decide)
  · rw [hb]
    exact planBatches_later_heads _
  · intro n1 n2 n3 n4 hsel h1 h2 h3 h4
    rw [hb, hsel]
    simp [planBatches, h2, h3, h4]

/-- C2 at the sequence `[f1(false), f2(true), f3(true), f4(false)]` with every
hook succeeding: two batches, of sizes 3 and 1. -/
theorem C2_batch_composition_witness :
    (∀ node ∈ (selectHooks demoConstants (demoRunner true).commandSuccess demoHooks4).2,
        (demoExecOK node.hookIndex node.hook []).success = true)
      ∧ batches (runConfigHooks demoConstants (demoRunner true) demoExecOK (fun _ => 0)
          demoHooks4 []).trace =
        [[⟨demoHook false "always", 0⟩, ⟨demoHook true "always", 1⟩,
          ⟨demoHook true "always", 2⟩], [⟨demoHook false "always", 3⟩]] :=
  ⟨fun _ _ => rfl,
   ((C2_batch_composition demoConstants (demoRunner true) demoExecOK (fun _ => 0)
      demoHooks4 [] (fun _ _ => rfl)).2.1).trans (by decide)⟩

/-- C3: a pass always returns, and in its trace every barrier entry waits for
exactly as many results as hooks were launched since the previous barrier
entry, which are exactly the launched hooks not collected yet; and when a hook
is launched, every hook launched earlier has been collected or was launched
since the previous barrier entry. -/
theorem C3_barrier_counts (c : Constants) (recv : regionHookRunner)
    (exec : Nat → Hook → List String → HookOutcome) (sched : Nat → Nat)
    (hooks : List Hook) (runArgs : List String) :
    (runConfigHooks c recv exec sched hooks runArgs).success ≠ none
      ∧ (∀ (pre : List Event) (n : Nat) (post : List Event),
          (runConfigHooks c recv exec sched hooks runArgs).trace = pre ++ Event.wait n :: post →
          n = (sinceBarrier pre).length
            ∧ (launched pre).Perm (collected pre ++ sinceBarrier pre)
            ∧ (launched pre).length = (collected pre).length + n)
      ∧ (∀ (pre : List Event) (node : hookLinkedList) (post : List Event),
          (runConfigHooks c recv exec sched hooks runArgs).trace =
            pre ++ Event.launch node :: post →
          (launched pre).Perm (collected pre ++ sinceBarrier pre)
            ∧ ∀ earlier ∈ launched pre, earlier ∈ collected pre ∨ earlier ∈ sinceBarrier pre) := by
  obtain ⟨r, hrun, hres⟩ := runConfigHooks_run c recv exec sched hooks runArgs
  have hok : TraceOK (runConfigHooks c recv exec sched hooks runArgs).trace := by
    simpa using hrun.traceOK [] traceOK_nil rfl (List.Perm.refl _)
  refine ⟨by rw [hres]; simp, ?_, ?_⟩
  · intro pre n post hsplit
    have h := hok pre (Event.wait n) post hsplit
    simp only [barrierOK] at h
    refine ⟨h.1, h.2, ?_⟩
    have := h.2.length_eq
    rw [List.length_append, ← h.1] at this
    exact this
  · intro pre node post hsplit
    have h := hok pre (Event.launch node) post hsplit
    simp only [barrierOK] at h
    refine ⟨h, fun earlier he => ?_⟩
    exact List.mem_append.1 (h.subset he)

/-- C3 at a chain whose first hook is flagged, `[g1(true), g2(true), g3(false)]`,
every hook succeeding: the second barrier is entered after seven events, waits
for one result, and one hook has been launched since the first barrier. -/
theorem C3_barrier_counts_witness :
    (runConfigHooks demoConstants (demoRunner true) demoExecOK (fun _ => 0)
        [demoHook true "always", demoHook true "always", demoHook false "always"] []).trace =
        [Event.launch ⟨demoHook true "always", 0⟩, Event.launch ⟨demoHook true "always", 1⟩,
          Event.wait 2, Event.recv ⟨demoHook true "always", 0⟩ true,
          Event.recv ⟨demoHook true "always", 1⟩ true, Event.finished 2,
          Event.launch ⟨demoHook false "always", 2⟩] ++
        Event.wait 1 :: [Event.recv ⟨demoHook false "always", 2⟩ true, Event.finished 1]
      ∧ 1 = (sinceBarrier
          [Event.launch ⟨demoHook true "always", 0⟩, Event.launch ⟨demoHook true "always", 1⟩,
            Event.wait 2, Event.recv ⟨demoHook true "always", 0⟩ true,
            Event.recv ⟨demoHook true "always", 1⟩ true, Event.finished 2,
            Event.launch ⟨demoHook false "always", 2⟩]).length :=
  ⟨by decide,
   ((C3_barrier_counts demoConstants (demoRunner true) demoExecOK (fun _ => 0)
      [demoHook true "always", demoHook true "always", demoHook false "always"] []).2.1
      [Event.launch ⟨demoHook true "always", 0⟩, Event.launch ⟨demoHook true "always", 1⟩,
        Event.wait 2, Event.recv ⟨demoHook true "always", 0⟩ true,
        Event.recv ⟨demoHook true "always", 1⟩ true, Event.finished 2,
        Event.launch ⟨demoHook false "always", 2⟩]
      1 [Event.recv ⟨demoHook false "always", 2⟩ true, Event.finished 1] (by decide)).1⟩

/-- C4: if a batch of the plan holds a hook whose result is failure, the pass
returns false, the hooks it launches are an initial part of the chain that ends
no later than that batch, and no hook of a later batch is launched, whatever
the order in which results arrive. -/
theorem C4_fail_fast (c : Constants) (recv : regionHookRunner)
    (exec : Nat → Hook → List String → HookOutcome) (sched : Nat → Nat)
    (hooks : List Hook) (runArgs : List String)
    (pre : List (List hookLinkedList)) (b : List hookLinkedList)
    (post : List (List hookLinkedList))
    (hplan : planBatches (selectHooks c recv.commandSuccess hooks).2 = pre ++ b :: post)
    (hfail : ∃ n ∈ b, (exec n.hookIndex n.hook runArgs).success = false) :
    (runConfigHooks c recv exec sched hooks runArgs).success = some false
      ∧ launched (runConfigHooks c recv exec sched hooks runArgs).trace <+: (pre ++ [b]).flatten
      ∧ (∀ n ∈ post.flatten,
          n ∉ launched (runConfigHooks c recv exec sched hooks runArgs).trace) := by
  obtain ⟨n, hn, hf⟩ := hfail
  have hbm : b ∈ planBatches (selectHooks c recv.commandSuccess hooks).2 := by
    rw [hplan]; simp
  have hball : b.all (fun n => (exec n.hookIndex n.hook runArgs).success) = false := by
    rw [List.all_eq_false]
    exact ⟨n, hn, by simp [hf]⟩
  have hpre : launched (runConfigHooks c recv exec sched hooks runArgs).trace <+:
      (pre ++ [b]).flatten := by
    rw [runConfigHooks_launched, hplan]
    exact flatten_initial (ranBatches_initial _ b post hball pre)
  refine ⟨?_, hpre, ?_⟩
  · rw [runConfigHooks_success]
    refine congrArg some ?_
    rw [List.all_eq_false]
    exact ⟨n, mem_of_mem_planBatches hbm hn, by simp [hf]⟩
  · intro m hm hl
    have hnd := selectHooks_nodup c recv.commandSuccess hooks
    rw [← planBatches_flatten (selectHooks c recv.commandSuccess hooks).2, hplan] at hnd
    have hsplit : (pre ++ b :: post).flatten = (pre ++ [b]).flatten ++ post.flatten := by
      simp
    rw [hsplit] at hnd
    exact (List.nodup_append.1 hnd).2.2 (hpre.subset hl) hm

/-- C4 at the sequence `[f1(false), f2(true), f3(true), f4(false)]` with `f2`
failing: the pass returns false and `f4` is not launched. -/
theorem C4_fail_fast_witness :
    (planBatches (selectHooks demoConstants (demoRunner true).commandSuccess demoHooks4).2 =
        [] ++ [⟨demoHook false "always", 0⟩, ⟨demoHook true "always", 1⟩,
          ⟨demoHook true "always", 2⟩] :: [[⟨demoHook false "always", 3⟩]])
      ∧ (runConfigHooks demoConstants (demoRunner true) (demoExecFailAt 1) (fun k => k + 1)
          demoHooks4 []).success = some false
      ∧ (⟨demoHook false "always", 3⟩ : hookLinkedList) ∉
          launched (runConfigHooks demoConstants (demoRunner true) (demoExecFailAt 1)
            (fun k => k + 1) demoHooks4 []).trace :=
  have h := C4_fail_fast demoConstants (demoRunner true) (demoExecFailAt 1) (fun k => k + 1)
    demoHooks4 [] []
    [⟨demoHook false "always", 0⟩, ⟨demoHook true "always", 1⟩, ⟨demoHook true "always", 2⟩]
    [[⟨demoHook false "always", 3⟩]] (by decide)
    ⟨⟨demoHook true "always", 1⟩, by decide, by decide⟩
  ⟨by decide, h.1, h.2.2 _ (by decide)⟩

/-- C5: when every eligible hook succeeds the pass launches the eligible chain,
each hook once and in order, and returns true; when no hook is eligible it
launches nothing and returns true.  For the list of a hook tagged `HRC_Always`
followed by a flagged hook tagged `HRC_Pass`, after a failed parent only the
first is eligible, there is one batch holding it alone, and the result is that
hook's own result. -/
theorem C5_all_succeed (c : Constants) (recv : regionHookRunner)
    (exec : Nat → Hook → List String → HookOutcome) (sched : Nat → Nat)
    (hooks : List Hook) (runArgs : List String)
    (hok : ∀ node ∈ (selectHooks c recv.commandSuccess hooks).2,
      (exec node.hookIndex node.hook runArgs).success = true) :
    (launched (runConfigHooks c recv exec sched hooks runArgs).trace =
        (selectHooks c recv.commandSuccess hooks).2
      ∧ (runConfigHooks c recv exec sched hooks runArgs).success = some true)
      ∧ ((selectHooks c recv.commandSuccess hooks).2 = [] →
          (runConfigHooks c recv exec sched hooks runArgs).trace = []
            ∧ (runConfigHooks c recv exec sched hooks runArgs).success = some true)
      ∧ (∀ (h0 h1 : Hook) (exec1 : Nat → Hook → List String → HookOutcome)
          (sched1 : Nat → Nat),
          c.HRC_Always ≠ c.HRC_Pass → recv.commandSuccess = false →
          h0.RunCondition = c.HRC_Always → h0.Concurrent = false →
          h1.RunCondition = c.HRC_Pass → h1.Concurrent = true →
          (selectHooks c recv.commandSuccess [h0, h1]).2 = [⟨h0, 0⟩]
            ∧ batches (runConfigHooks c recv exec1 sched1 [h0, h1] runArgs).trace = [[⟨h0, 0⟩]]
            ∧ (runConfigHooks c recv exec1 sched1 [h0, h1] runArgs).success =
                some (exec1 0 h0 runArgs).success) := by
  refine ⟨⟨?_, ?_⟩, ?_, ?_⟩
  · rw [runConfigHooks_launched,
      ranBatches_of_all_ok _ _ (fun b hb n hn => hok n (mem_of_mem_planBatches hb hn)),
      planBatches_flatten]
  · rw [runConfigHooks_success]
    exact congrArg some (List.all_eq_true.2 hok)
  · intro hnil
    simp [runConfigHooks, hnil, batchLoop, Flow.result, LoopState.init]
  · intro h0 h1 exec1 sched1 hne hcs hc0 hf0 hc1 hf1
    have hsel : (selectHooks c recv.commandSuccess [h0, h1]).2 = [⟨h0, 0⟩] := by
      simp [selectHooks, selectLoop, skipped, hcs, hc0, hc1, hne]
    refine ⟨hsel, ?_, ?_⟩
    · rw [runConfigHooks_batches, hsel]
      cases hr : (exec1 0 h0 runArgs).success <;> simp [planBatches, ranBatches, hr]
    · rw [runConfigHooks_success, hsel]
      simp

/-- C5 at the list `[always, pass(concurrent)]` after a successful parent, with
every hook succeeding: both hooks are launched in order and the pass returns
true. -/
theorem C5_all_succeed_witness :
    (∀ node ∈ (selectHooks demoConstants (demoRunner true).commandSuccess
          [demoHook false "always", demoHook true "pass"]).2,
        (demoExecOK node.hookIndex node.hook []).success = true)
      ∧ launched (runConfigHooks demoConstants (demoRunner true) demoExecOK (fun _ => 0)
          [demoHook false "always", demoHook true "pass"] []).trace =
        [⟨demoHook false "always", 0⟩, ⟨demoHook true "pass", 1⟩]
      ∧ (runConfigHooks demoConstants (demoRunner true) demoExecOK (fun _ => 0)
          [demoHook false "always", demoHook true "pass"] []).success = some true :=
  have h := C5_all_succeed demoConstants (demoRunner true) demoExecOK (fun _ => 0)
    [demoHook false "always", demoHook true "pass"] [] (fun _ _ => rfl)
  ⟨fun _ _ => rfl, h.1.1.trans (by decide), h.1.2⟩

/-! ## Environment resolution -/

theorem resolveEnv_eq (getenv : String → String) :
    ∀ (env : List (String × String)) (runArgs : List String),
      resolveEnv getenv env runArgs =
        runArgs ++ (resolvedAssignments getenv env).flatMap
          (fun kv => ["-e", kv.1 ++ "=" ++ kv.2]) := by
  intro env
  induction env with
  | nil => intro runArgs; simp [resolveEnv, resolvedAssignments]
  | cons kv env ih =>
    intro runArgs
    obtain ⟨k, v⟩ := kv
    simp only [resolveEnv, ih]
    simp [resolvedAssignments]

theorem resolveEnv_envAppends (getenv : String → String) :
    ∀ (env : List (String × String)) (runArgs : List String),
      resolveEnv getenv env runArgs = runArgs ++ (envAppends getenv env).flatten := by
  intro env
  induction env with
  | nil => intro runArgs; simp [resolveEnv, envAppends]
  | cons kv env ih =>
    intro runArgs
    obtain ⟨k, v⟩ := kv
    simp only [resolveEnv, ih]
    simp [envAppends]

theorem raceRun_single_done (msched : Nat → Nat) (fuel clock : Nat) (array : List String)
    (p : RaceProc) (h : p.finished = true) :
    raceRun msched fuel clock array [p] = (array, [p]) := by
  cases fuel with
  | zero => rfl
  | succ f =>
    have hr : List.range 1 = [0] := rfl
    simp [raceRun, hr, h]

theorem raceRun_single_step (msched : Nat → Nat) (f clock : Nat) (array : List String)
    (p : RaceProc) (h : p.finished = false) :
    raceRun msched (f + 1) clock array [p] =
      raceRun msched f (clock + 1) (raceStep array p).1 [(raceStep array p).2] := by
  have hr : List.range 1 = [0] := rfl
  simp [raceRun, hr, h, Nat.mod_one]

theorem goRead_goAppend (array : List String) (v : ArgsVar) (xs : List String)
    (h : ∀ len, v = ArgsVar.shared len → len ≤ array.length) :
    goRead (goAppend array v xs).1 (goAppend array v xs).2 = goRead array v ++ xs
      ∧ (∀ len, (goAppend array v xs).2 = ArgsVar.shared len →
          len ≤ (goAppend array v xs).1.length) := by
  cases v with
  | own elems => simp [goAppend, goRead]
  | shared len =>
    have hlen := h len rfl
    by_cases hfit : len + xs.length ≤ array.length
    · simp only [goAppend, hfit, if_true, goRead]
      refine ⟨?_, ?_⟩
      · have h1 : (List.take len array ++ xs).length = len + xs.length := by
          simp [List.length_take, Nat.min_eq_left hlen]
        exact List.take_left' h1
      · intro len1 h1
        cases h1
        simp [List.length_take, Nat.min_eq_left hlen]
    · simp [goAppend, hfit, goRead]

theorem raceRun_single (msched : Nat → Nat) :
    ∀ (appends : List (List String)) (fuel clock : Nat) (array : List String) (p : RaceProc),
      p.appends = appends → p.command = none → appends.length + 1 ≤ fuel →
      (∀ len, p.runArgs = ArgsVar.shared len → len ≤ array.length) →
      (raceRun msched fuel clock array [p]).2.map (fun q => q.command) =
        [if p.reads then some (goRead array p.runArgs ++ appends.flatten) else none] := by
  intro appends
  induction appends with
  | nil =>
    intro fuel clock array p hp hc hfuel _
    obtain ⟨f, rfl⟩ : ∃ f, fuel = f + 1 := ⟨fuel - 1, by simp at hfuel; omega⟩
    by_cases hr : p.reads = true
    · have hfin : p.finished = false := by simp [RaceProc.finished, hp, hr, hc]
      have hstep : raceStep array p =
          (array, { p with command := some (goRead array p.runArgs) }) := by
        simp [raceStep, hp, hr, hc]
      have hfin2 : ({ p with command := some (goRead array p.runArgs) } : RaceProc).finished
          = true := by simp [RaceProc.finished, hp]
      rw [raceRun_single_step msched f clock array p hfin, hstep,
        raceRun_single_done msched f (clock + 1) array _ hfin2]
      simp [hr]
    · have hr1 : p.reads = false := by simpa using hr
      have hfin : p.finished = true := by simp [RaceProc.finished, hp, hr1]
      rw [raceRun_single_done msched _ clock array p hfin]
      simp [hr1, hc]
  | cons xs rest ih =>
    intro fuel clock array p hp hc hfuel hlen
    obtain ⟨f, rfl⟩ : ∃ f, fuel = f + 1 := ⟨fuel - 1, by simp at hfuel; omega⟩
    have hfin : p.finished = false := by simp [RaceProc.finished, hp]
    have hstep : raceStep array p =
        ((goAppend array p.runArgs xs).1,
          { p with runArgs := (goAppend array p.runArgs xs).2, appends := rest }) := by
      simp [raceStep, hp]
    have hg := goRead_goAppend array p.runArgs xs hlen
    rw [raceRun_single_step msched f clock array p hfin, hstep]
    rw [ih f (clock + 1) (goAppend array p.runArgs xs).1
      { p with runArgs := (goAppend array p.runArgs xs).2, appends := rest } rfl hc
      (by simp at hfuel ⊢; omega) hg.2]
    simp [hg.1, List.append_assoc]

theorem raceBatch_single (c : Constants) (ext : External) (recv : regionHookRunner)
    (counterSeen : Nat → Nat) (msched : Nat → Nat) (runArgs : List String) (spare : Nat)
    (node : hookLinkedList) :
    raceBatch c ext recv counterSeen msched runArgs spare [node] =
      [match cloneStep c ext recv (AddUint32 (counterSeen node.hookIndex) 1) node.hookIndex
          node.hook with
        | none => none
        | some dockerFilePath =>
          if ext.dockerBuild
              (imageNameOf recv.serviceName recv.hookName node.hookIndex
                (AddUint32 (counterSeen node.hookIndex) 1)) dockerFilePath
          then some (resolveEnv ext.getenv node.hook.Environment runArgs ++
            [imageNameOf recv.serviceName recv.hookName node.hookIndex
              (AddUint32 (counterSeen node.hookIndex) 1)])
          else none] := by
  simp only [raceBatch, List.map_cons, List.map_nil, List.sum_cons, List.sum_nil, Nat.add_zero]
  rw [raceRun_single msched _ _ 0 _ _ rfl rfl (Nat.le_refl _)
    (by intro len h; simp only [raceProc] at h; cases h; simp)]
  have hread : goRead (runArgs ++ List.replicate spare "")
      (raceProc c ext recv counterSeen runArgs.length node).runArgs = runArgs := by
    simp [raceProc, goRead]
  rw [hread, resolveEnv_envAppends]
  cases hcl : cloneStep c ext recv (AddUint32 (counterSeen node.hookIndex) 1) node.hookIndex
      node.hook with
  | none => simp [raceProc, hcl]
  | some dockerFilePath =>
    by_cases hb : ext.dockerBuild
        (imageNameOf recv.serviceName recv.hookName node.hookIndex
          (AddUint32 (counterSeen node.hookIndex) 1)) dockerFilePath = true
    · simp [raceProc, hcl, hb, List.append_assoc]
    · simp [raceProc, hcl, hb]

theorem sum_map_set {α : Type} (f : α → Nat) :
    ∀ (l : List α) (i : Nat) (x y : α), l[i]? = some y →
      ((l.set i x).map f).sum + f y = (l.map f).sum + f x := by
  intro l
  induction l with
  | nil => intro i x y h; simp at h
  | cons a t ih =>
    intro i x y h
    cases i with
    | zero =>
      simp at h
      subst h
      simp [List.set]
      omega
    | succ i =>
      simp at h
      have := ih i x y h
      simp only [List.set, List.map_cons, List.sum_cons]
      omega

theorem finished_iff_stepsLeft (p : RaceProc) : p.finished = true ↔ p.stepsLeft = 0 := by
  unfold RaceProc.finished RaceProc.stepsLeft
  cases hA : p.appends <;> cases hr : p.reads <;> cases hc : p.command <;> simp

theorem raceStep_stepsLeft (array : List String) (p : RaceProc) (h : p.finished = false) :
    (raceStep array p).2.stepsLeft + 1 = p.stepsLeft := by
  unfold RaceProc.finished at h
  unfold raceStep RaceProc.stepsLeft
  cases hA : p.appends with
  | cons xs rest => simp; omega
  | nil =>
    cases hr : p.reads <;> cases hc : p.command <;> simp [hA, hr, hc] at h ⊢

theorem raceRun_length (msched : Nat → Nat) :
    ∀ (fuel clock : Nat) (array : List String) (procs : List RaceProc),
      (raceRun msched fuel clock array procs).2.length = procs.length := by
  intro fuel
  induction fuel with
  | zero => intro clock array procs; rfl
  | succ fuel ih =>
    intro clock array procs
    unfold raceRun
    simp only
    split
    · rfl
    · split
      · rfl
      · rw [ih]; simp

/-- Every goroutine of a batch has taken all its steps when the run ends,
provided the fuel covers the steps left. -/
theorem raceRun_finished (msched : Nat → Nat) :
    ∀ (fuel clock : Nat) (array : List String) (procs : List RaceProc),
      (procs.map RaceProc.stepsLeft).sum ≤ fuel →
      ∀ q ∈ (raceRun msched fuel clock array procs).2, q.finished = true := by
  intro fuel
  induction fuel with
  | zero =>
    intro clock array procs hsum q hq
    simp only [raceRun] at hq
    rw [finished_iff_stepsLeft]
    have h0 : (procs.map RaceProc.stepsLeft).sum = 0 := by omega
    rw [List.sum_eq_zero_iff] at h0
    exact h0 _ (List.mem_map_of_mem _ hq)
  | succ fuel ih =>
    intro clock array procs hsum q hq
    unfold raceRun at hq
    simp only at hq
    generalize hact : ((List.range procs.length).filter
      (fun i => match procs[i]? with
        | some p => !p.finished
        | none => false)) = active at hq
    cases hk : active[msched clock % active.length]? with
    | none =>
      rw [hk] at hq
      simp only at hq
      have hnil : active = [] := by
        cases active with
        | nil => rfl
        | cons a t =>
          exfalso
          have : msched clock % (a :: t).length < (a :: t).length :=
            Nat.mod_lt _ (by simp)
          rw [List.getElem?_eq_getElem this] at hk
          cases hk
      obtain ⟨i, hi, rfl⟩ := List.getElem_of_mem hq
      by_contra hfin
      have : i ∈ active := by
        rw [← hact, List.mem_filter]
        refine ⟨List.mem_range.mpr hi, ?_⟩
        rw [List.getElem?_eq_getElem hi]
        simpa using hfin
      rw [hnil] at this
      cases this
    | some i =>
      rw [hk] at hq
      simp only at hq
      have hmem : i ∈ active := List.getElem?_mem hk
      rw [← hact, List.mem_filter] at hmem
      obtain ⟨hi, hp⟩ := hmem
      cases hpi : procs[i]? with
      | none => rw [hpi] at hp; cases hp
      | some p =>
        rw [hpi] at hp hq
        simp only at hq
        have hfin : p.finished = false := by simpa using hp
        apply ih (clock + 1) _ _ _ q hq
        have h1 := sum_map_set RaceProc.stepsLeft procs i (raceStep array p).2 p hpi
        have h2 := raceStep_stepsLeft array p hfin
        omega

theorem raceProc_stepsLeft (c : Constants) (ext : External) (recv : regionHookRunner)
    (counterSeen : Nat → Nat) (len : Nat) (node : hookLinkedList) :
    (raceProc c ext recv counterSeen len node).stepsLeft ≤
      (raceProc c ext recv counterSeen len node).appends.length + 1 := by
  unfold RaceProc.stepsLeft
  split <;> omega

/-- The run of `raceBatch` leaves no goroutine with a step to take. -/
theorem raceBatch_runs_out (c : Constants) (ext : External) (recv : regionHookRunner)
    (counterSeen : Nat → Nat) (msched : Nat → Nat) (runArgs : List String) (spare : Nat)
    (batch : List hookLinkedList) :
    ∀ q ∈ (raceRun msched
        ((batch.map (raceProc c ext recv counterSeen runArgs.length)).map
          (fun p => p.appends.length + 1)).sum 0
        (runArgs ++ List.replicate spare "")
        (batch.map (raceProc c ext recv counterSeen runArgs.length))).2,
      q.finished = true := by
  apply raceRun_finished
  apply List.sum_le_sum
  intro p _
  unfold RaceProc.stepsLeft
  split <;> omega

theorem map_set_same {α β : Type} (f : α → β) :
    ∀ (l : List α) (i : Nat) (p q : α), l[i]? = some p → f q = f p →
      (l.set i q).map f = l.map f := by
  intro l
  induction l with
  | nil => intro i p q h; simp at h
  | cons a t ih =>
    intro i p q h hf
    cases i with
    | zero =>
      simp at h
      subst h
      simp [List.set, hf]
    | succ i =>
      simp at h
      simp [List.set, ih i p q h hf]

theorem raceStep_reads (array : List String) (p : RaceProc) :
    (raceStep array p).2.reads = p.reads := by
  unfold raceStep
  split
  · rfl
  · split <;> rfl

theorem raceStep_command (array : List String) (p : RaceProc)
    (h : p.command.isSome = true → p.reads = true) :
    (raceStep array p).2.command.isSome = true → (raceStep array p).2.reads = true := by
  unfold raceStep
  split
  · exact h
  · split
    · rename_i hr
      intro _
      simp only [Bool.and_eq_true] at hr
      exact hr.1
    · exact h

theorem raceRun_reads (msched : Nat → Nat) :
    ∀ (fuel clock : Nat) (array : List String) (procs : List RaceProc),
      (raceRun msched fuel clock array procs).2.map (fun p => p.reads) =
        procs.map (fun p => p.reads) := by
  intro fuel
  induction fuel with
  | zero => intro clock array procs; rfl
  | succ fuel ih =>
    intro clock array procs
    unfold raceRun
    simp only
    generalize ((List.range procs.length).filter
      (fun i => match procs[i]? with
        | some p => !p.finished
        | none => false)) = active
    cases active[msched clock % active.length]? with
    | none => rfl
    | some i =>
      simp only
      cases hp : procs[i]? with
      | none => rfl
      | some p =>
        simp only
        rw [ih]
        exact map_set_same (fun p => p.reads) procs i p (raceStep array p).2 hp
          (raceStep_reads array p)

theorem raceRun_command (msched : Nat → Nat) :
    ∀ (fuel clock : Nat) (array : List String) (procs : List RaceProc),
      (∀ q ∈ procs, q.command.isSome = true → q.reads = true) →
      ∀ q ∈ (raceRun msched fuel clock array procs).2,
        q.command.isSome = true → q.reads = true := by
  intro fuel
  induction fuel with
  | zero => intro clock array procs h; exact h
  | succ fuel ih =>
    intro clock array procs h
    unfold raceRun
    simp only
    generalize ((List.range procs.length).filter
      (fun i => match procs[i]? with
        | some p => !p.finished
        | none => false)) = active
    cases active[msched clock % active.length]? with
    | none => exact h
    | some i =>
      simp only
      cases hp : procs[i]? with
      | none => exact h
      | some p =>
        simp only
        apply ih
        intro q hq
        rcases List.mem_or_eq_of_mem_set hq with hq | hq
        · exact h q hq
        · subst hq
          exact raceStep_command array p (h p (List.getElem?_mem hp))

/-- Whatever the order of the steps, every goroutine of a batch that gets as far
as `docker run` has built its command when the run ends, and no other has. -/
theorem raceBatch_commands (c : Constants) (ext : External) (recv : regionHookRunner)
    (counterSeen : Nat → Nat) (msched : Nat → Nat) (runArgs : List String) (spare : Nat)
    (batch : List hookLinkedList) :
    (raceBatch c ext recv counterSeen msched runArgs spare batch).map Option.isSome =
      batch.map (fun node =>
        (raceProc c ext recv counterSeen runArgs.length node).reads) := by
  have hfin := raceBatch_runs_out c ext recv counterSeen msched runArgs spare batch
  have hcmd := raceRun_command msched
    ((batch.map (raceProc c ext recv counterSeen runArgs.length)).map
      (fun p => p.appends.length + 1)).sum 0
    (runArgs ++ List.replicate spare "")
    (batch.map (raceProc c ext recv counterSeen runArgs.length))
    (by
      intro q hq
      obtain ⟨node, _, rfl⟩ := List.mem_map.1 hq
      intro h
      simp [raceProc] at h)
  have hreads := raceRun_reads msched
    ((batch.map (raceProc c ext recv counterSeen runArgs.length)).map
      (fun p => p.appends.length + 1)).sum 0
    (runArgs ++ List.replicate spare "")
    (batch.map (raceProc c ext recv counterSeen runArgs.length))
  obtain ⟨F, hF⟩ : ∃ F, F = (raceRun msched
      ((batch.map (raceProc c ext recv counterSeen runArgs.length)).map
        (fun p => p.appends.length + 1)).sum 0
      (runArgs ++ List.replicate spare "")
      (batch.map (raceProc c ext recv counterSeen runArgs.length))).2 := ⟨_, rfl⟩
  have hB : raceBatch c ext recv counterSeen msched runArgs spare batch =
      F.map (fun p => p.command) := by rw [hF]; rfl
  rw [← hF] at hfin hcmd hreads
  have hR : batch.map (fun node =>
      (raceProc c ext recv counterSeen runArgs.length node).reads) =
      F.map (fun p => p.reads) := by
    rw [hreads, List.map_map]; rfl
  rw [hB, hR, List.map_map]
  apply List.map_congr_left
  intro q hq
  simp only [Function.comp]
  have h1 := hfin q hq
  have h2 := hcmd q hq
  unfold RaceProc.finished at h1
  cases hr : q.reads <;> cases hc : q.command <;> simp [hr, hc] at h1 h2 ⊢

/-- C10: the code against the claim.  Two hooks of one batch, declaring `WHO=hook0`
and `WHO=hook1`, are handed the slice `["run"]` with seven free places behind
it.  When the second appends its entry, the first appends its own over it, and
the second then builds its command, the second hook's `docker run` carries
`WHO=hook0`, not the `WHO=hook1` it declares.  With no free place behind the
slice, or with the second hook alone in its batch, it carries `WHO=hook1`.
In general the loop itself computes the entries the claim describes: it appends
`-e` and `key=value` per entry, the value being the declared one or, when that
is empty, the process environment's; `runConfigHook` passes this list to
`buildAndRun`; a hook alone in its batch hands it to `docker` followed by the
image name; two resolutions of one map give the same assignments in
whatever order the entries are visited; and in a batch of any size, whatever
the order of the steps, exactly the goroutines that get as far as `docker run`
have built their command when the run ends. -/
theorem C10_shared_slice_overwrites :
    (planBatches (selectHooks demoConstants true
          [demoEnvHook false "hook0", demoEnvHook true "hook1"]).2 =
        [[⟨demoEnvHook false "hook0", 0⟩, ⟨demoEnvHook true "hook1", 1⟩]]
      ∧ resolvedAssignments (demoExternal true true).getenv
          (demoEnvHook true "hook1").Environment = [("WHO", "hook1")]
      ∧ raceBatch demoConstants (demoExternal true true) (demoRunner true) (fun i => i)
          (fun k => if k = 1 then 0 else 1) ["run"] 7
          [⟨demoEnvHook false "hook0", 0⟩, ⟨demoEnvHook true "hook1", 1⟩] =
        [some ["run", "-e", "WHO=hook0", "svc-pre-0-1"],
         some ["run", "-e", "WHO=hook0", "svc-pre-1-2"]]
      ∧ raceBatch demoConstants (demoExternal true true) (demoRunner true) (fun i => i)
          (fun k => if k = 1 then 0 else 1) ["run"] 0
          [⟨demoEnvHook false "hook0", 0⟩, ⟨demoEnvHook true "hook1", 1⟩] =
        [some ["run", "-e", "WHO=hook0", "svc-pre-0-1"],
         some ["run", "-e", "WHO=hook1", "svc-pre-1-2"]]
      ∧ raceBatch demoConstants (demoExternal true true) (demoRunner true) (fun i => i)
          (fun k => if k = 1 then 0 else 1) ["run"] 7 [⟨demoEnvHook true "hook1", 1⟩] =
        [some ["run", "-e", "WHO=hook1", "svc-pre-1-2"]])
      ∧ (∀ (getenv : String → String) (env : List (String × String)) (runArgs : List String),
          resolveEnv getenv env runArgs =
              runArgs ++ env.flatMap (fun kv =>
                ["-e", kv.1 ++ "=" ++ (if kv.2 = "" then getenv kv.1 else kv.2)])
            ∧ (∀ k v, (k, v) ∈ env → v ≠ "" → (k, v) ∈ resolvedAssignments getenv env)
            ∧ (∀ k, (k, "") ∈ env → (k, getenv k) ∈ resolvedAssignments getenv env)
            ∧ (∀ env2 : List (String × String), env2.Perm env →
                (resolvedAssignments getenv env2).Perm (resolvedAssignments getenv env)
                  ∧ (∀ kv, kv ∈ resolvedAssignments getenv env2 ↔
                      kv ∈ resolvedAssignments getenv env)
                  ∧ (resolveEnv getenv env2 []).Perm (resolveEnv getenv env [])))
      ∧ (∀ (c : Constants) (ext : External) (recv : regionHookRunner) (g i : Nat) (hook : Hook)
          (runArgs : List String),
          (runConfigHook c ext recv g i hook runArgs).2 =
            match cloneStep c ext recv (AddUint32 g 1) i hook with
            | none => { success := false, runOutput := [] }
            | some dockerFilePath =>
              buildAndRun ext recv
                (imageNameOf recv.serviceName recv.hookName i (AddUint32 g 1)) dockerFilePath
                (runArgs ++ hook.Environment.flatMap (fun kv =>
                  ["-e", kv.1 ++ "=" ++ (if kv.2 = "" then ext.getenv kv.1 else kv.2)])))
      ∧ (∀ (c : Constants) (ext : External) (recv : regionHookRunner) (counterSeen : Nat → Nat)
          (msched : Nat → Nat) (runArgs : List String) (spare : Nat) (node : hookLinkedList),
          raceBatch c ext recv counterSeen msched runArgs spare [node] =
            [match cloneStep c ext recv (AddUint32 (counterSeen node.hookIndex) 1)
                node.hookIndex node.hook with
              | none => none
              | some dockerFilePath =>
                if ext.dockerBuild
                    (imageNameOf recv.serviceName recv.hookName node.hookIndex
                      (AddUint32 (counterSeen node.hookIndex) 1)) dockerFilePath
                then some (resolveEnv ext.getenv node.hook.Environment runArgs ++
                  [imageNameOf recv.serviceName recv.hookName node.hookIndex
                    (AddUint32 (counterSeen node.hookIndex) 1)])
                else none])
      ∧ (∀ (c : Constants) (ext : External) (recv : regionHookRunner) (counterSeen : Nat → Nat)
          (msched : Nat → Nat) (runArgs : List String) (spare : Nat)
          (batch : List hookLinkedList),
          (raceBatch c ext recv counterSeen msched runArgs spare batch).map Option.isSome =
            batch.map (fun node =>
              (raceProc c ext recv counterSeen runArgs.length node).reads)) := by
  have h1 : ∀ (getenv : String → String) (env : List (String × String))
      (runArgs : List String), resolveEnv getenv env runArgs =
      runArgs ++ env.flatMap (fun kv =>
        ["-e", kv.1 ++ "=" ++ (if kv.2 = "" then getenv kv.1 else kv.2)]) := by
    intro getenv env runArgs
    rw [resolveEnv_eq]
    simp [resolvedAssignments, List.flatMap_map]
  refine ⟨⟨by decide, by decide, by decide, by decide, by decide⟩, ?_, ?_, ?_, ?_⟩
  · intro getenv env runArgs
    refine ⟨h1 getenv env runArgs, ?_, ?_, ?_⟩
    · intro k v hm hv
      simp only [resolvedAssignments, List.mem_map]
      exact ⟨(k, v), hm, by simp [hv]⟩
    · intro k hm
      simp only [resolvedAssignments, List.mem_map]
      exact ⟨(k, ""), hm, by simp⟩
    · intro env2 hperm
      have hp : (resolvedAssignments getenv env2).Perm (resolvedAssignments getenv env) :=
        hperm.map _
      refine ⟨hp, fun kv => ⟨fun h => hp.subset h, fun h => hp.symm.subset h⟩, ?_⟩
      rw [resolveEnv_eq, resolveEnv_eq]
      simpa using hp.flatMap_right _
  · intro c ext recv g i hook runArgs
    simp only [runConfigHook, h1]
    split <;> rfl
  · exact raceBatch_single
  · exact raceBatch_commands

/-! ## Derived names -/

theorem digitChar_value : ∀ d, d < 10 → (Nat.digitChar d).toNat - 48 = d := by decide

theorem digitChar_not_sep : ∀ d, d < 10 → Nat.digitChar d ≠ '-' ∧ Nat.digitChar d ≠ '_' := by
  decide

theorem toDigitsCore_value : ∀ (fuel n : Nat) (ds : List Char), n < fuel →
    (Nat.toDigitsCore 10 fuel n ds).foldl (fun a ch => 10 * a + (ch.toNat - 48)) 0 =
      ds.foldl (fun a ch => 10 * a + (ch.toNat - 48)) n := by
  intro fuel
  induction fuel with
  | zero => intro n ds h; omega
  | succ fuel ih =>
    intro n ds h
    have hd := digitChar_value (n % 10) (Nat.mod_lt _ (by decide))
    simp only [Nat.toDigitsCore]
    split
    · rename_i h0
      have hn : n % 10 = n := by omega
      simp only [List.foldl_cons, Nat.mul_zero, Nat.zero_add, hd]
      rw [hn]
    · rename_i h0
      rw [ih (n / 10) _ (by omega)]
      simp only [List.foldl_cons, hd]
      have : 10 * (n / 10) + n % 10 = n := Nat.div_add_mod n 10
      rw [this]

theorem toDigitsCore_chars : ∀ (fuel n : Nat) (ds : List Char),
    ∀ ch ∈ Nat.toDigitsCore 10 fuel n ds, ch ∈ ds ∨ (ch ≠ '-' ∧ ch ≠ '_') := by
  intro fuel
  induction fuel with
  | zero => intro n ds ch h; exact Or.inl (by simpa [Nat.toDigitsCore] using h)
  | succ fuel ih =>
    intro n ds ch h
    have hd := digitChar_not_sep (n % 10) (Nat.mod_lt _ (by decide))
    simp only [Nat.toDigitsCore] at h
    split at h
    · rcases List.mem_cons.1 h with rfl | h1
      · exact Or.inr hd
      · exact Or.inl h1
    · rcases ih _ _ ch h with h1 | h1
      · rcases List.mem_cons.1 h1 with rfl | h2
        · exact Or.inr hd
        · exact Or.inl h2
      · exact Or.inr h1

theorem decimalValue_repr (n : Nat) : decimalValue (Nat.repr n).data = n := by
  have := toDigitsCore_value (n + 1) n [] (Nat.lt_succ_self n)
  simpa [decimalValue, Nat.repr, Nat.toDigits, List.asString] using this

theorem repr_injective {a b : Nat} (h : Nat.repr a = Nat.repr b) : a = b := by
  rw [← decimalValue_repr a, ← decimalValue_repr b, h]

theorem repr_no_sep (n : Nat) : '-' ∉ (Nat.repr n).data ∧ '_' ∉ (Nat.repr n).data := by
  have key : ∀ ch ∈ (Nat.repr n).data, ch ≠ '-' ∧ ch ≠ '_' := by
    intro ch hch
    have h1 : ch ∈ Nat.toDigitsCore 10 (n + 1) n [] := by
      simpa [Nat.repr, Nat.toDigits, List.asString] using hch
    rcases toDigitsCore_chars (n + 1) n [] ch h1 with h2 | h2
    · simp at h2
    · exact h2
  exact ⟨fun h => (key _ h).1 rfl, fun h => (key _ h).2 rfl⟩

theorem suffix_after_sep (sep : Char) : ∀ (x1 x2 d1 d2 : List Char),
    x1 ++ sep :: d1 = x2 ++ sep :: d2 → sep ∉ d1 → sep ∉ d2 → d1 = d2 := by
  intro x1 x2 d1 d2 h h1 h2
  rcases List.append_eq_append_iff.1 h with ⟨a, _, hb⟩ | ⟨a, _, hb⟩
  · cases a with
    | nil => simpa using hb
    | cons y a =>
      simp only [List.cons_append, List.cons.injEq] at hb
      exact absurd (by rw [hb.2]; simp) h1
  · cases a with
    | nil =>
      simp only [List.nil_append, List.cons.injEq, true_and] at hb
      exact hb.symm
    | cons y a =>
      simp only [List.cons_append, List.cons.injEq] at hb
      exact absurd (by rw [hb.2]; simp) h2

theorem imageNameOf_counter_inj {s1 h1 s2 h2 : String} {i1 i2 c1 c2 : Nat}
    (h : imageNameOf s1 h1 i1 c1 = imageNameOf s2 h2 i2 c2) : c1 = c2 := by
  have hd := congrArg String.data h
  simp only [imageNameOf, String.data_append] at hd
  have hd1 : (s1.data ++ ['-'] ++ h1.data ++ ['-'] ++ (Nat.repr i1).data) ++
      '-' :: (Nat.repr c1).data =
      (s2.data ++ ['-'] ++ h2.data ++ ['-'] ++ (Nat.repr i2).data) ++
      '-' :: (Nat.repr c2).data := by
    simpa using hd
  have := suffix_after_sep '-' _ _ _ _ hd1 (repr_no_sep c1).1 (repr_no_sep c2).1
  exact repr_injective (String.ext_iff.2 this)

theorem repoDirName_counter_inj {h1 h2 : String} {i1 i2 c1 c2 : Nat}
    (h : repoDirName h1 i1 c1 = repoDirName h2 i2 c2) : c1 = c2 := by
  have hd := congrArg String.data h
  simp only [repoDirName, String.data_append] at hd
  have hd1 : (h1.data ++ ['_', 'c', 'l', 'o', 'n', 'e', '_'] ++ (Nat.repr i1).data) ++
      '_' :: (Nat.repr c1).data =
      (h2.data ++ ['_', 'c', 'l', 'o', 'n', 'e', '_'] ++ (Nat.repr i2).data) ++
      '_' :: (Nat.repr c2).data := by
    simpa using hd
  have := suffix_after_sep '_' _ _ _ _ hd1 (repr_no_sep c1).2 (repr_no_sep c2).2
  exact repr_injective (String.ext_iff.2 this)

/-! ## The global counter -/

theorem runConfigHook_counter (c : Constants) (ext : External) (recv : regionHookRunner)
    (g i : Nat) (hook : Hook) (runArgs : List String) :
    (runConfigHook c ext recv g i hook runArgs).1 = AddUint32 g 1 := by
  simp only [runConfigHook]
  split <;> rfl

theorem invokeAll_counter (c : Constants) (ext : External) :
    ∀ (invs : List Invocation) (g i : Nat), i < invs.length →
      ∃ r, (invokeAll c ext g invs)[i]? = some r ∧ r.1 = (g + i + 1) % 2 ^ 32 := by
  intro invs
  induction invs with
  | nil => intro g i h; simp at h
  | cons inv invs ih =>
    intro g i h
    cases i with
    | zero =>
      refine ⟨runConfigHook c ext inv.recv g inv.hookIndex inv.hook inv.runArgs,
        by simp [invokeAll], ?_⟩
      rw [runConfigHook_counter]
      simp [AddUint32]
    | succ i =>
      have hi : i < invs.length := by simpa using h
      obtain ⟨r, hr, hc⟩ := ih
        (runConfigHook c ext inv.recv g inv.hookIndex inv.hook inv.runArgs).1 i hi
      refine ⟨r, by simpa [invokeAll] using hr, ?_⟩
      rw [hc, runConfigHook_counter]
      simp only [AddUint32]
      omega

theorem invokeAll_length (c : Constants) (ext : External) :
    ∀ (invs : List Invocation) (g : Nat), (invokeAll c ext g invs).length = invs.length := by
  intro invs
  induction invs with
  | nil => intro g; rfl
  | cons inv invs ih => intro g; simp [invokeAll, ih]

/-- C8, as amended: among at most `2 ^ 32` invocations, any two obtain different
counter values, so their image names differ and their clone directory names
differ, whatever the service names, hook names and hook indices. -/
theorem C8_names_distinct_below_wrap (c : Constants) (ext : External) (g0 : Nat)
    (invs : List Invocation) (hN : invs.length ≤ 2 ^ 32)
    (i j : Nat) (ri rj : Nat × HookOutcome) (hij : i < j)
    (hi : (invokeAll c ext g0 invs)[i]? = some ri)
    (hj : (invokeAll c ext g0 invs)[j]? = some rj) :
    ri.1 ≠ rj.1
      ∧ ∀ (s1 h1 s2 h2 : String) (x1 x2 : Nat),
          imageNameOf s1 h1 x1 ri.1 ≠ imageNameOf s2 h2 x2 rj.1
            ∧ repoDirName h1 x1 ri.1 ≠ repoDirName h2 x2 rj.1 := by
  have hjlt : j < invs.length := by
    have := (List.getElem?_eq_some.1 hj).1
    rwa [invokeAll_length] at this
  obtain ⟨r1, hr1, hc1⟩ := invokeAll_counter c ext invs g0 i (by omega)
  obtain ⟨r2, hr2, hc2⟩ := invokeAll_counter c ext invs g0 j hjlt
  rw [hi] at hr1
  rw [hj] at hr2
  cases hr1
  cases hr2
  have hne : ri.1 ≠ rj.1 := by
    rw [hc1, hc2]
    have h32 : (2 : Nat) ^ 32 = 4294967296 := by norm_num
    rw [h32] at hN ⊢
    omega
  exact ⟨hne, fun s1 h1 s2 h2 x1 x2 =>
    ⟨fun h => hne (imageNameOf_counter_inj h), fun h => hne (repoDirName_counter_inj h)⟩⟩

/-- C8, as amended, at two invocations of the same hook from a fresh counter:
the counters are 1 and 2 and the names differ. -/
theorem C8_names_distinct_below_wrap_witness :
    [demoInvocation, demoInvocation].length ≤ 2 ^ 32
      ∧ imageNameOf "svc" "pre" 0
          (runConfigHook demoConstants (demoExternal true true) (demoRunner true) 0 0
            (demoHook false "always") []).1 ≠
        imageNameOf "svc" "pre" 0
          (runConfigHook demoConstants (demoExternal true true) (demoRunner true) 1 0
            (demoHook false "always") []).1 :=
  ⟨by norm_num,
   ((C8_names_distinct_below_wrap demoConstants (demoExternal true true) 0
      [demoInvocation, demoInvocation] (by norm_num) 0 1
      (runConfigHook demoConstants (demoExternal true true) (demoRunner true) 0 0
        (demoHook false "always") [])
      (runConfigHook demoConstants (demoExternal true true) (demoRunner true) 1 0
        (demoHook false "always") [])
      (by decide) rfl rfl).2 "svc" "pre" "svc" "pre" 0 0).1⟩

/-- C8 as stated fails after wrap-around: in a run of `2 ^ 32 + 1` invocations
of the same hook from a fresh counter, the first and the last obtain the same
counter value, hence the same image name and the same clone directory name. -/
theorem C8_wraparound_counterexample :
    ∃ ri rj : Nat × HookOutcome,
      (invokeAll demoConstants (demoExternal true true) 0
          (List.replicate 4294967297 demoInvocation))[0]? = some ri
        ∧ (invokeAll demoConstants (demoExternal true true) 0
          (List.replicate 4294967297 demoInvocation))[4294967296]? = some rj
        ∧ imageNameOf "svc" "pre" 0 ri.1 = imageNameOf "svc" "pre" 0 rj.1
        ∧ repoDirName "pre" 0 ri.1 = repoDirName "pre" 0 rj.1 := by
  obtain ⟨r1, hr1, hc1⟩ := invokeAll_counter demoConstants (demoExternal true true)
    (List.replicate 4294967297 demoInvocation) 0 0
    (by rw [List.length_replicate]; norm_num)
  obtain ⟨r2, hr2, hc2⟩ := invokeAll_counter demoConstants (demoExternal true true)
    (List.replicate 4294967297 demoInvocation) 0 4294967296
    (by rw [List.length_replicate]; norm_num)
  have h1 : r1.1 = 1 := by rw [hc1]; norm_num
  have h2 : r2.1 = 1 := by rw [hc2]; norm_num
  exact ⟨r1, r2, hr1, hr2, by rw [h1, h2], by rw [h1, h2]⟩

/-! ## Run-output delivery -/

theorem ranBatches_initial_self (ok : hookLinkedList → Bool) :
    ∀ bs : List (List hookLinkedList), ranBatches ok bs <+: bs := by
  intro bs
  induction bs with
  | nil => exact List.prefix_refl _
  | cons b bs ih =>
    by_cases hb : b.all ok = true
    · simpa [ranBatches, hb, List.prefix_cons_inj] using ih
    · have : ranBatches ok (b :: bs) = [b] := by
        simp only [ranBatches, hb]
        rfl
      rw [this]
      exact ⟨bs, rfl⟩

theorem runConfigHooks_launched_initial (c : Constants) (recv : regionHookRunner)
    (exec : Nat → Hook → List String → HookOutcome) (sched : Nat → Nat)
    (hooks : List Hook) (runArgs : List String) :
    launched (runConfigHooks c recv exec sched hooks runArgs).trace <+:
      (selectHooks c recv.commandSuccess hooks).2 := by
  rw [runConfigHooks_launched]
  have := flatten_initial (ranBatches_initial_self
    (fun n => (exec n.hookIndex n.hook runArgs).success)
    (planBatches (selectHooks c recv.commandSuccess hooks).2))
  rwa [planBatches_flatten] at this

theorem buildAndRun_runOutput_length (ext : External) (recv : regionHookRunner)
    (imageName dockerFilePath : String) (runArgs : List String)
    (hcap : recv.runOutput = true) :
    (buildAndRun ext recv imageName dockerFilePath runArgs).runOutput.length = 1 := by
  unfold buildAndRun
  by_cases hb : ext.dockerBuild imageName dockerFilePath = true
  · by_cases hrun : (ext.dockerRun (ext.argsRead (runArgs ++ [imageName]))).1 = true
    · simp [hb, hrun, sendRunOutput, hcap]
    · simp [hb, hrun, sendRunOutput, hcap]
  · simp [hb, sendRunOutput, hcap]

theorem runConfigHook_runOutput_length (c : Constants) (ext : External)
    (recv : regionHookRunner) (g i : Nat) (hook : Hook) (runArgs : List String)
    (hcap : recv.runOutput = true) :
    (runConfigHook c ext recv g i hook runArgs).2.runOutput.length =
      if hook.Repo ≠ "" ∧
          ext.gitClone hook.Ref hook.Repo
            (ext.pathJoin c.TempDir (repoDirName recv.hookName i (AddUint32 g 1))) = false
      then 0 else 1 := by
  by_cases hr : hook.Repo = ""
  · simp only [runConfigHook, cloneStep, hr, ne_eq, not_true_eq_false, if_false, false_and]
    exact buildAndRun_runOutput_length ext recv _ _ _ hcap
  · by_cases hg : ext.gitClone hook.Ref hook.Repo
        (ext.pathJoin c.TempDir (repoDirName recv.hookName i (AddUint32 g 1))) = true
    · simp only [runConfigHook, cloneStep, hr, ne_eq, not_false_eq_true, if_true, hg,
        Bool.not_true, Bool.false_eq_true, if_false, true_and]
      exact buildAndRun_runOutput_length ext recv _ _ _ hcap
    · simp only [Bool.not_eq_true] at hg
      simp [runConfigHook, cloneStep, hr, hg]

theorem flatMap_length_le_of_le_one {α β : Type} (f : α → List β) :
    ∀ l : List α, (∀ a ∈ l, (f a).length ≤ 1) → (l.flatMap f).length ≤ l.length := by
  intro l
  induction l with
  | nil => intro _; simp
  | cons a l ih =>
    intro h
    have h1 := h a (List.mem_cons_self _ _)
    have h2 := ih (fun b hb => h b (List.mem_cons_of_mem _ hb))
    simp only [List.flatMap_cons, List.length_append, List.length_cons]
    omega

/-- C9: the code against the claim.  With run-output capture requested, a pass
over one hook whose clone fails makes a channel of capacity 1, launches the hook
and sends nothing on the channel; with the clone succeeding and the build
failing the same pass sends one (empty) buffer, and with everything succeeding it
sends the run output.  In general the capacity is the number of eligible hooks,
a hook sends one buffer unless its clone fails, in which case it sends none, and
the buffers sent never outnumber the hooks launched nor the capacity. -/
theorem C9_clone_failure_sends_nothing :
    ((runConfigHooks demoConstants demoCaptureRunner
          (hookGoroutine demoConstants (demoExternal false true) demoCaptureRunner (fun _ => 0))
          (fun _ => 0) [demoRemoteHook] []).runOutputCap = some 1
      ∧ launched (runConfigHooks demoConstants demoCaptureRunner
          (hookGoroutine demoConstants (demoExternal false true) demoCaptureRunner (fun _ => 0))
          (fun _ => 0) [demoRemoteHook] []).trace = [⟨demoRemoteHook, 0⟩]
      ∧ (runConfigHooks demoConstants demoCaptureRunner
          (hookGoroutine demoConstants (demoExternal false true) demoCaptureRunner (fun _ => 0))
          (fun _ => 0) [demoRemoteHook] []).runOutputSent = [])
      ∧ (runConfigHooks demoConstants demoCaptureRunner
          (hookGoroutine demoConstants (demoExternal true false) demoCaptureRunner (fun _ => 0))
          (fun _ => 0) [demoRemoteHook] []).runOutputSent = [""]
      ∧ (runConfigHooks demoConstants demoCaptureRunner
          (hookGoroutine demoConstants (demoExternal true true) demoCaptureRunner (fun _ => 0))
          (fun _ => 0) [demoRemoteHook] []).runOutputSent = ["out"]
      ∧ (∀ (c : Constants) (ext : External) (recv : regionHookRunner)
          (counterSeen : Nat → Nat) (sched : Nat → Nat) (hooks : List Hook)
          (runArgs : List String), recv.runOutput = true →
          (runConfigHooks c recv (hookGoroutine c ext recv counterSeen) sched hooks
              runArgs).runOutputCap = some (selectHooks c recv.commandSuccess hooks).2.length
            ∧ (∀ node ∈ launched (runConfigHooks c recv (hookGoroutine c ext recv counterSeen)
                  sched hooks runArgs).trace,
                (hookGoroutine c ext recv counterSeen node.hookIndex node.hook
                    runArgs).runOutput.length =
                  if node.hook.Repo ≠ "" ∧
                      ext.gitClone node.hook.Ref node.hook.Repo
                        (ext.pathJoin c.TempDir (repoDirName recv.hookName node.hookIndex
                          (AddUint32 (counterSeen node.hookIndex) 1))) = false
                  then 0 else 1)
            ∧ (runConfigHooks c recv (hookGoroutine c ext recv counterSeen) sched hooks
                  runArgs).runOutputSent.length ≤
                (launched (runConfigHooks c recv (hookGoroutine c ext recv counterSeen) sched
                  hooks runArgs).trace).length
            ∧ (launched (runConfigHooks c recv (hookGoroutine c ext recv counterSeen) sched
                  hooks runArgs).trace).length ≤
                (selectHooks c recv.commandSuccess hooks).2.length) := by
  refine ⟨by decide, by decide, by decide, ?_⟩
  intro c ext recv counterSeen sched hooks runArgs hcap
  have hlen : ∀ node : hookLinkedList,
      (hookGoroutine c ext recv counterSeen node.hookIndex node.hook runArgs).runOutput.length =
        if node.hook.Repo ≠ "" ∧
            ext.gitClone node.hook.Ref node.hook.Repo
              (ext.pathJoin c.TempDir (repoDirName recv.hookName node.hookIndex
                (AddUint32 (counterSeen node.hookIndex) 1))) = false
        then 0 else 1 := fun node =>
    runConfigHook_runOutput_length c ext recv _ _ _ _ hcap
  refine ⟨?_, fun node _ => hlen node, ?_, ?_⟩
  · simp [runConfigHooks, hcap, selectHooks_eq]
    rw [← List.countP_eq_length_filter, ← List.countP_eq_length_filter]
    have h2 : (fun p : Nat × Hook => eligible c recv.commandSuccess p.2) =
        (eligible c recv.commandSuccess) ∘ Prod.snd := rfl
    rw [h2, ← List.countP_map, List.enum_map_snd]
  · have : (runConfigHooks c recv (hookGoroutine c ext recv counterSeen) sched hooks
        runArgs).runOutputSent =
        (launched (runConfigHooks c recv (hookGoroutine c ext recv counterSeen) sched hooks
          runArgs).trace).flatMap
          (fun node => (hookGoroutine c ext recv counterSeen node.hookIndex node.hook
            runArgs).runOutput) := rfl
    rw [this]
    refine flatMap_length_le_of_le_one _ _ (fun node _ => ?_)
    rw [hlen node]
    split <;> omega
  · exact (runConfigHooks_launched_initial c recv _ sched hooks runArgs).length_le

/-! ## The coordinator -/

theorem launchRegions_ok (c : Constants) (w : World) (config : Config) (env : Environment)
    (workingDir environment : String) :
    ∀ (regions : List Region) (started : List (List String)),
      (∀ pr ∈ regions, (resolveRegion w env environment pr).isSome = true) →
      launchRegions c w config env workingDir environment regions started =
        Except.ok (started ++ regions.map (fun pr =>
          runArgsFactory c w config workingDir ++
            (resolveRegion w env environment pr).getD [])) := by
  intro regions
  induction regions with
  | nil => intro started _; simp [launchRegions]
  | cons pr rest ih =>
    intro started h
    have h1 := h pr (List.mem_cons_self _ _)
    obtain ⟨args, hargs⟩ := Option.isSome_iff_exists.1 h1
    simp only [launchRegions, hargs]
    rw [ih _ (fun q hq => h q (List.mem_cons_of_mem _ hq))]
    simp [hargs]

theorem perm_all_eq {α : Type} (p : α → Bool) {l1 l2 : List α} (h : l1.Perm l2) :
    l1.all p = l2.all p := by
  rw [Bool.eq_iff_iff, List.all_eq_true, List.all_eq_true]
  exact ⟨fun hh x hx => hh x (h.symm.subset hx), fun hh x hx => hh x (h.subset hx)⟩

theorem collectRegions_spec (rsched : Nat → Nat) :
    ∀ (n : Nat) (pending : List Bool) (clock : Nat) (success : Bool) (received : List Bool),
      pending.length = n →
      ∃ rs : List Bool, rs.Perm pending ∧
        collectRegions rsched n pending clock success received =
          some (success && pending.all id, received ++ rs) := by
  intro n
  induction n with
  | zero =>
    intro pending clock success received h
    have : pending = [] := List.length_eq_zero.1 h
    subst this
    exact ⟨[], List.Perm.refl _, by simp [collectRegions]⟩
  | succ n ih =>
    intro pending clock success received h
    have hlt : rsched clock % pending.length < pending.length := Nat.mod_lt _ (by omega)
    have hget : pending[rsched clock % pending.length]? =
        some (pending[rsched clock % pending.length]) := List.getElem?_eq_getElem hlt
    have hperm := perm_cons_eraseIdx pending _ hlt
    have hlen : (pending.eraseIdx (rsched clock % pending.length)).length = n := by
      rw [List.length_eraseIdx_of_lt hlt]; omega
    obtain ⟨rs, hrs, hc⟩ := ih (pending.eraseIdx (rsched clock % pending.length)) (clock + 1)
      (success && pending[rsched clock % pending.length])
      (received ++ [pending[rsched clock % pending.length]]) hlen
    refine ⟨pending[rsched clock % pending.length] :: rs, (hrs.cons _).trans hperm, ?_⟩
    simp only [collectRegions, hget]
    rw [hc, ← perm_all_eq id hperm]
    simp [Bool.and_assoc]

theorem filterMap_success_eq (passes : List Pass)
    (h : ∀ p ∈ passes, ∃ b, p.result.success = some b) :
    (passes.filterMap (fun p => p.result.success)).length = passes.length
      ∧ (passes.filterMap (fun p => p.result.success)).all id =
          passes.all (fun p => p.result.success == some true) := by
  induction passes with
  | nil => simp
  | cons p passes ih =>
    obtain ⟨b, hb⟩ := h p (List.mem_cons_self _ _)
    have := ih (fun q hq => h q (List.mem_cons_of_mem _ hq))
    cases b <;> simp [List.filterMap_cons, hb, this.1, this.2]

theorem region_aggregate_no_capture (c : Constants) (w : World)
    (exec : Nat → Nat → Hook → List String → HookOutcome) (sched : Nat → Nat → Nat)
    (rsched : Nat → Nat) (hookName environment : String)
    (provisionedRegions : Option (List Region)) (commandSuccess : Bool)
    (config : Config) (workingDir : String) (configHooks : List Hook) (env : Environment)
    (hconf : w.GetConfig = some config) (hwd : w.Getwd = some workingDir)
    (hhooks : config.Hooks hookName = some configHooks) (henv : environment ≠ "")
    (hget : config.GetEnvironment environment = some env)
    (hres : ∀ pr ∈ targetRegions env provisionedRegions,
      (resolveRegion w env environment pr).isSome = true) :
    (ExecuteWithRunCapture c w exec sched rsched hookName environment provisionedRegions
        commandSuccess false).passes =
        separatePasses c
          { runOutput := false, serviceName := config.ServiceName, hookName := hookName,
            commandSuccess := commandSuccess }
          configHooks exec sched
          ((targetRegions env provisionedRegions).map (fun pr =>
            runArgsFactory c w config workingDir ++
              (resolveRegion w env environment pr).getD []))
      ∧ (∀ p ∈ (ExecuteWithRunCapture c w exec sched rsched hookName environment
            provisionedRegions commandSuccess false).passes,
          ∃ b, p.result.success = some b)
      ∧ (ExecuteWithRunCapture c w exec sched rsched hookName environment provisionedRegions
          commandSuccess false).received.Perm
          ((ExecuteWithRunCapture c w exec sched rsched hookName environment provisionedRegions
            commandSuccess false).passes.filterMap (fun p => p.result.success))
      ∧ (ExecuteWithRunCapture c w exec sched rsched hookName environment provisionedRegions
          commandSuccess false).received.length =
          (targetRegions env provisionedRegions).length
      ∧ (ExecuteWithRunCapture c w exec sched rsched hookName environment provisionedRegions
          commandSuccess false).success =
          some ((ExecuteWithRunCapture c w exec sched rsched hookName environment
            provisionedRegions commandSuccess false).received.all id)
      ∧ (ExecuteWithRunCapture c w exec sched rsched hookName environment provisionedRegions
          commandSuccess false).success =
          some ((ExecuteWithRunCapture c w exec sched rsched hookName environment
            provisionedRegions commandSuccess false).passes.all
              (fun p => p.result.success == some true))
      ∧ (∀ p1 p2 : Pass,
          (ExecuteWithRunCapture c w exec sched rsched hookName environment provisionedRegions
            commandSuccess false).passes = [p1, p2] →
          p1.result.success = some true → p2.result.success = some false →
          (ExecuteWithRunCapture c w exec sched rsched hookName environment provisionedRegions
            commandSuccess false).success = some false) := by
  have hsome : ∀ p ∈ separatePasses c
      { runOutput := false, serviceName := config.ServiceName, hookName := hookName,
        commandSuccess := commandSuccess }
      configHooks exec sched
      ((targetRegions env provisionedRegions).map (fun pr =>
        runArgsFactory c w config workingDir ++
          (resolveRegion w env environment pr).getD [])),
      ∃ b, p.result.success = some b := by
    intro p hp
    obtain ⟨q, _, rfl⟩ := List.mem_map.1 hp
    exact ⟨_, runConfigHooks_success _ _ _ _ _ _⟩
  have hlenP : (separatePasses c
      { runOutput := false, serviceName := config.ServiceName, hookName := hookName,
        commandSuccess := commandSuccess }
      configHooks exec sched
      ((targetRegions env provisionedRegions).map (fun pr =>
        runArgsFactory c w config workingDir ++
          (resolveRegion w env environment pr).getD []))).length =
      (targetRegions env provisionedRegions).length := by simp [separatePasses]
  have hL := launchRegions_ok c w config env workingDir environment
    (targetRegions env provisionedRegions) [] hres
  rw [List.nil_append] at hL
  obtain ⟨P, hP⟩ : ∃ P, P = separatePasses c
      { runOutput := false, serviceName := config.ServiceName, hookName := hookName,
        commandSuccess := commandSuccess }
      configHooks exec sched
      ((targetRegions env provisionedRegions).map (fun pr =>
        runArgsFactory c w config workingDir ++
          (resolveRegion w env environment pr).getD [])) := ⟨_, rfl⟩
  rw [← hP] at hsome hlenP ⊢
  have hfm := filterMap_success_eq P hsome
  obtain ⟨rs, hrs, hc⟩ := collectRegions_spec rsched (targetRegions env provisionedRegions).length
    (P.filterMap (fun p => p.result.success)) 0 true [] (by rw [hfm.1, hlenP])
  have hE : ExecuteWithRunCapture c w exec sched rsched hookName environment provisionedRegions
      commandSuccess false =
      { success := some ((P.filterMap (fun p => p.result.success)).all id)
        passes := P
        received := rs } := by
    simp only [ExecuteWithRunCapture, hconf, hwd, hhooks, henv, if_false, hget, hL,
      regionPasses, Bool.false_eq_true]
    rw [← hP, hc]
    simp
  rw [hE]
  refine ⟨rfl, hsome, hrs, ?_, ?_, ?_, ?_⟩
  · have := hrs.length_eq
    rw [hfm.1, hlenP] at this
    exact this
  · exact congrArg some (perm_all_eq id hrs).symm
  · exact congrArg some hfm.2
  · intro p1 p2 hp h1 h2
    simp only at hp
    subst hp
    refine congrArg some ?_
    rw [hfm.2]
    simp [h1, h2]

theorem sum_map_eraseIdx {α : Type} (f : α → Nat) :
    ∀ (l : List α) (i : Nat) (y : α), l[i]? = some y →
      ((l.eraseIdx i).map f).sum + f y = (l.map f).sum := by
  intro l
  induction l with
  | nil => intro i y h; simp at h
  | cons a t ih =>
    intro i y h
    cases i with
    | zero =>
      simp at h
      subst h
      simp only [List.eraseIdx, List.map_cons, List.sum_cons]
      omega
    | succ i =>
      simp at h
      have := ih i y h
      simp only [List.eraseIdx, List.map_cons, List.sum_cons]
      omega

theorem ctlStep_runArgs (c : Constants) (recv : regionHookRunner) (hooks : List Hook)
    (exec : Nat → Hook → List String → HookOutcome) (sched : Nat → Nat)
    (room : Nat) (p : PassProc) :
    (ctlStep c recv hooks exec sched room p).2.runArgs = p.runArgs := by
  unfold ctlStep
  split
  · rfl
  · rfl
  · simp only; split <;> rfl
  · rfl
  · split
    · rfl
    · simp only; split <;> rfl
  · rfl

theorem ctlStep_stepsLeft (c : Constants) (recv : regionHookRunner) (hooks : List Hook)
    (exec : Nat → Hook → List String → HookOutcome) (sched : Nat → Nat)
    (room : Nat) (p : PassProc) (h : ctlEnabled p = true) :
    (ctlStep c recv hooks exec sched room p).2.stepsLeft c recv hooks exec <
      p.stepsLeft c recv hooks exec := by
  obtain ⟨runArgs, ctl, st, running, sent⟩ := p
  cases ctl with
  | start => simp [ctlStep, PassProc.stepsLeft]
  | returned b => simp [ctlEnabled] at h
  | loop nodes =>
    cases nodes with
    | nil => simp [ctlStep, PassProc.stepsLeft]
    | cons node rest =>
      by_cases hb : barrierDue rest = true
      · simp [ctlStep, PassProc.stepsLeft, hb, nodesWeight, Goroutine.stepsLeft]; omega
      · simp [ctlStep, PassProc.stepsLeft, hb, nodesWeight, Goroutine.stepsLeft]; omega
  | barrier n rest =>
    cases n with
    | zero => simp [ctlStep, PassProc.stepsLeft]
    | succ n =>
      simp only [ctlEnabled, Bool.not_eq_eq_eq_not, Bool.not_true, List.isEmpty_eq_false] at h
      have hlen : 0 < st.pending.length := by
        cases hp : st.pending with
        | nil => rw [hp] at h; simp at h
        | cons a t => simp
      have hk : sched st.clock % st.pending.length < st.pending.length :=
        Nat.mod_lt _ hlen
      simp only [ctlStep, List.getElem?_eq_getElem hk]
      by_cases hs : (st.pending[sched st.clock % st.pending.length]).2 = true
      · simp [PassProc.stepsLeft, hs, List.length_eraseIdx, hk]; omega
      · simp [PassProc.stepsLeft, hs, List.length_eraseIdx, hk]; omega

theorem goStep_stepsLeft (c : Constants) (recv : regionHookRunner) (hooks : List Hook)
    (exec : Nat → Hook → List String → HookOutcome)
    (room : Nat) (p : PassProc) (j : Nat) (g : Goroutine)
    (hg : p.running[j]? = some g) (hb : g.blocked = false) :
    (goStep room p j).2.stepsLeft c recv hooks exec < p.stepsLeft c recv hooks exec := by
  obtain ⟨runArgs, ctl, st, running, sent⟩ := p
  obtain ⟨node, toSend, success, blocked⟩ := g
  simp only at hg hb
  subst hb
  cases toSend with
  | nil =>
    have h1 := sum_map_eraseIdx Goroutine.stepsLeft running j _ hg
    simp only [Goroutine.stepsLeft, Bool.false_eq_true, if_false, List.length_nil] at h1
    simp only [goStep, hg, PassProc.stepsLeft, Bool.false_eq_true, if_false,
      List.length_append, List.length_singleton]
    omega
  | cons buffer rest =>
    by_cases hr : 0 < room
    · have h1 := sum_map_set Goroutine.stepsLeft running j
        { node := node, toSend := rest, success := success, blocked := false } _ hg
      simp only [Goroutine.stepsLeft, Bool.false_eq_true, if_false, List.length_cons] at h1
      simp only [goStep, hg, PassProc.stepsLeft, Bool.false_eq_true, if_false, hr, if_true]
      omega
    · have h1 := sum_map_set Goroutine.stepsLeft running j
        { node := node, toSend := buffer :: rest, success := success, blocked := true } _ hg
      simp only [Goroutine.stepsLeft, Bool.false_eq_true, if_false, if_true,
        List.length_cons] at h1
      simp only [goStep, hg, PassProc.stepsLeft, Bool.false_eq_true, if_false, hr]
      omega

theorem stepsLeftFrom_set (c : Constants) (recv : regionHookRunner) (hooks : List Hook)
    (exec : Nat → Nat → Hook → List String → HookOutcome) :
    ∀ (passes : List PassProc) (k i : Nat) (p q : PassProc), passes[i]? = some p →
      q.stepsLeft c recv hooks (exec (k + i)) < p.stepsLeft c recv hooks (exec (k + i)) →
      stepsLeftFrom c recv hooks exec k (passes.set i q) <
        stepsLeftFrom c recv hooks exec k passes := by
  intro passes
  induction passes with
  | nil => intro k i p q h; simp at h
  | cons a t ih =>
    intro k i p q h hlt
    cases i with
    | zero =>
      simp at h
      subst h
      simp only [List.set, stepsLeftFrom]
      simpa using hlt
    | succ i =>
      simp at h
      have hlt2 : q.stepsLeft c recv hooks (exec (k + 1 + i)) <
          p.stepsLeft c recv hooks (exec (k + 1 + i)) := by
        have : k + 1 + i = k + (i + 1) := by omega
        rw [this]; exact hlt
      have := ih (k + 1) i p q h hlt2
      simp only [List.set, stepsLeftFrom]
      omega

theorem mem_passActions_ctl {i : Nat} {p : PassProc} {a : Nat × Option Nat}
    (h : a ∈ passActions i p) (h2 : a.2 = none) : a.1 = i ∧ ctlEnabled p = true := by
  unfold passActions at h
  rw [List.mem_append] at h
  rcases h with h | h
  · by_cases hc : ctlEnabled p = true
    · simp [hc] at h; subst h; exact ⟨rfl, hc⟩
    · simp [hc] at h
  · rw [List.mem_map] at h
    obtain ⟨j, _, rfl⟩ := h
    simp at h2

theorem mem_passActions_go {i j : Nat} {p : PassProc} {a : Nat × Option Nat}
    (h : a ∈ passActions i p) (h2 : a.2 = some j) :
    a.1 = i ∧ ∃ g, p.running[j]? = some g ∧ g.blocked = false := by
  unfold passActions at h
  rw [List.mem_append] at h
  rcases h with h | h
  · by_cases hc : ctlEnabled p = true
    · simp [hc] at h; subst h; simp at h2
    · simp [hc] at h
  · rw [List.mem_map] at h
    obtain ⟨j2, hj, rfl⟩ := h
    simp at h2
    subst h2
    rw [List.mem_filter] at hj
    refine ⟨rfl, ?_⟩
    cases hg : p.running[j2]? with
    | none => rw [hg] at hj; simp at hj
    | some g => rw [hg] at hj; exact ⟨g, rfl, by simpa using hj.2⟩

theorem mem_enabled {s : FanOut} {a : Nat × Option Nat} (h : a ∈ s.enabled) :
    ∃ p, s.passes[a.1]? = some p ∧ a ∈ passActions a.1 p := by
  unfold FanOut.enabled at h
  rw [List.mem_flatMap] at h
  obtain ⟨⟨i, p⟩, hip, ha⟩ := h
  rw [List.mk_mem_enum_iff_getElem?] at hip
  simp only at ha
  have hi : a.1 = i := by
    cases h2 : a.2 with
    | none => exact (mem_passActions_ctl ha h2).1
    | some j => exact (mem_passActions_go ha h2).1
  subst hi
  exact ⟨p, hip, ha⟩

theorem fanOutStep_stepsLeft (c : Constants) (recv : regionHookRunner) (hooks : List Hook)
    (exec : Nat → Nat → Hook → List String → HookOutcome) (sched : Nat → Nat → Nat)
    (s : FanOut) (a : Nat × Option Nat) (h : a ∈ s.enabled) :
    stepsLeftFrom c recv hooks exec 0 (fanOutStep c recv hooks exec sched s a).passes <
      stepsLeftFrom c recv hooks exec 0 s.passes := by
  obtain ⟨p, hp, ha⟩ := mem_enabled h
  unfold fanOutStep
  rw [hp]
  simp only
  apply stepsLeftFrom_set c recv hooks exec s.passes 0 a.1 p _ hp
  rw [Nat.zero_add]
  cases h2 : a.2 with
  | none =>
    exact ctlStep_stepsLeft c recv hooks (exec a.1) (sched a.1) s.room p
      (mem_passActions_ctl ha h2).2
  | some j =>
    obtain ⟨_, g, hg, hb⟩ := mem_passActions_go ha h2
    exact goStep_stepsLeft c recv hooks (exec a.1) s.room p j g hg hb

/-- With fuel for the steps left, the run ends in a state where no step can be
taken. -/
theorem fanOutRun_quiescent (c : Constants) (recv : regionHookRunner) (hooks : List Hook)
    (exec : Nat → Nat → Hook → List String → HookOutcome) (sched : Nat → Nat → Nat)
    (rsched : Nat → Nat) :
    ∀ (fuel clock : Nat) (s : FanOut), stepsLeftFrom c recv hooks exec 0 s.passes ≤ fuel →
      (fanOutRun c recv hooks exec sched rsched fuel clock s).enabled = [] := by
  intro fuel
  induction fuel with
  | zero =>
    intro clock s hle
    simp only [fanOutRun]
    cases he : s.enabled with
    | nil => rfl
    | cons a t =>
      exfalso
      have := fanOutStep_stepsLeft c recv hooks exec sched s a (by rw [he]; simp)
      omega
  | succ fuel ih =>
    intro clock s hle
    unfold fanOutRun
    cases hk : s.enabled[rsched clock % s.enabled.length]? with
    | none =>
      simp only
      cases he : s.enabled with
      | nil => rfl
      | cons a t =>
        exfalso
        have hlt : rsched clock % s.enabled.length < s.enabled.length :=
          Nat.mod_lt _ (by rw [he]; simp)
        rw [List.getElem?_eq_getElem hlt] at hk
        cases hk
    | some a =>
      simp only
      apply ih
      have := fanOutStep_stepsLeft c recv hooks exec sched s a (List.getElem?_mem hk)
      omega

theorem stepsLeftFrom_init (c : Constants) (recv : regionHookRunner) (hooks : List Hook)
    (exec : Nat → Nat → Hook → List String → HookOutcome) :
    ∀ (started : List (List String)) (k : Nat),
      stepsLeftFrom c recv hooks exec k
        (started.map (fun runArgs =>
          ({ runArgs := runArgs, ctl := Ctl.start, st := LoopState.init, running := [],
             sent := [] } : PassProc))) =
      ((started.enumFrom k).map (fun p =>
        2 + ((selectHooks c recv.commandSuccess hooks).2.map (fun node =>
          (exec p.1 node.hookIndex node.hook p.2).runOutput.length + 4)).sum)).sum := by
  intro started
  induction started with
  | nil => intro k; rfl
  | cons a t ih =>
    intro k
    simp only [List.map_cons, stepsLeftFrom, List.enumFrom_cons, List.sum_cons, ih (k + 1)]
    simp [PassProc.stepsLeft, nodesWeight, LoopState.init]

/-- The passes sharing the run-output channel are run until no step can be
taken. -/
theorem sharedRun_quiescent (c : Constants) (recv : regionHookRunner) (configHooks : List Hook)
    (exec : Nat → Nat → Hook → List String → HookOutcome) (sched : Nat → Nat → Nat)
    (rsched : Nat → Nat) (started : List (List String)) :
    (sharedRun c recv configHooks exec sched rsched started).enabled = [] := by
  unfold sharedRun
  apply fanOutRun_quiescent
  unfold fanOutBound FanOut.init
  simp only
  rw [stepsLeftFrom_init]
  exact le_of_eq rfl

theorem passActions_nil_of_enabled_nil {s : FanOut} (h : s.enabled = []) {i : Nat}
    {p : PassProc} (hp : s.passes[i]? = some p) : passActions i p = [] := by
  cases hA : passActions i p with
  | nil => rfl
  | cons a t =>
    exfalso
    have hmem : a ∈ s.enabled := by
      unfold FanOut.enabled
      rw [List.mem_flatMap]
      refine ⟨(i, p), ?_, ?_⟩
      · rw [List.mk_mem_enum_iff_getElem?]; exact hp
      · simp only; rw [hA]; simp
    rw [h] at hmem
    cases hmem

/-- When no step can be taken, a pass that has not returned waits in a barrier
with no result on offer, and every hook goroutine still running is blocked on
the run-output channel. -/
theorem stuck_of_enabled_nil {s : FanOut} (h : s.enabled = []) {p : PassProc}
    (hp : p ∈ s.passes) :
    ((∃ success, p.ctl = Ctl.returned success) ∨
      (∃ left rest, p.ctl = Ctl.barrier (left + 1) rest ∧ p.st.pending = [])) ∧
    ∀ g ∈ p.running, g.blocked = true := by
  obtain ⟨i, hi, rfl⟩ := List.getElem_of_mem hp
  have hA := passActions_nil_of_enabled_nil h (List.getElem?_eq_getElem hi)
  unfold passActions at hA
  rw [List.append_eq_nil] at hA
  obtain ⟨hc, hg⟩ := hA
  constructor
  · have hce : ctlEnabled s.passes[i] = false := by
      by_contra hne
      simp only [Bool.not_eq_false] at hne
      simp [hne] at hc
    unfold ctlEnabled at hce
    cases hctl : s.passes[i].ctl with
    | start => rw [hctl] at hce; simp at hce
    | loop nodes => rw [hctl] at hce; simp at hce
    | returned b => exact Or.inl ⟨b, rfl⟩
    | barrier n rest =>
      cases n with
      | zero => rw [hctl] at hce; simp at hce
      | succ n =>
        rw [hctl] at hce
        simp only [Bool.not_eq_eq_eq_not, Bool.not_false, List.isEmpty_iff] at hce
        exact Or.inr ⟨n, rest, rfl, hce⟩
  · intro g hgm
    obtain ⟨j, hj, rfl⟩ := List.getElem_of_mem hgm
    by_contra hb
    have : j ∈ (List.range s.passes[i].running.length).filter
        (fun j => match s.passes[i].running[j]? with
          | some g => !g.blocked
          | none => false) := by
      rw [List.mem_filter]
      refine ⟨List.mem_range.mpr hj, ?_⟩
      rw [List.getElem?_eq_getElem hj]
      simpa using hb
    rw [List.map_eq_nil_iff] at hg
    rw [hg] at this
    cases this

/-- In the state the passes sharing the run-output channel end in, a pass that
has not returned waits in a barrier for a hook goroutine that is blocked. -/
theorem sharedRun_stuck (c : Constants) (recv : regionHookRunner) (configHooks : List Hook)
    (exec : Nat → Nat → Hook → List String → HookOutcome) (sched : Nat → Nat → Nat)
    (rsched : Nat → Nat) (started : List (List String)) :
    ∀ p ∈ (sharedRun c recv configHooks exec sched rsched started).passes,
      ((∃ success, p.ctl = Ctl.returned success) ∨
        (∃ left rest, p.ctl = Ctl.barrier (left + 1) rest ∧ p.st.pending = [])) ∧
      ∀ g ∈ p.running, g.blocked = true :=
  fun _ hp =>
    stuck_of_enabled_nil (sharedRun_quiescent c recv configHooks exec sched rsched started) hp

/-- C6: the code against the claim.  With run-output capture requested, one
hook configured and two regions whose contexts resolve, both passes store a
channel of capacity 1 through the one pointer they share before either hook
sends; the first hook's send takes the only place, the second hook's send
blocks for ever before it sends on `successChan`, the second pass stays in its
barrier, no step is left, and `ExecuteWithRunCapture` never returns.  When the
first pass finishes before the second stores its channel the call returns
true, and so does the same call without capture.  In general, without capture
and with every region's context resolved, one pass per region is started, each
delivers a boolean, every one is received exactly once, and the result is
their conjunction; a first region succeeding and a second failing give
false.  With capture, for every input and scheduler the passes run until no
step is left, and a pass that has not returned then waits in a barrier with no
result on offer while every hook goroutine of it still running is blocked on
the run-output channel. -/
theorem C6_capture_blocks_fan_out :
    ((∀ pr ∈ targetRegions demoEnvironment (some demoRegions),
          (resolveRegion demoWorld demoEnvironment "dev" pr).isSome = true)
      ∧ (ExecuteWithRunCapture demoConstants demoWorld demoExecCapture (fun _ _ => 0)
          (fun k => k) "pre" "dev" (some demoRegions) true true).success = none
      ∧ (ExecuteWithRunCapture demoConstants demoWorld demoExecCapture (fun _ _ => 0)
          (fun k => k) "pre" "dev" (some demoRegions) true true).passes.map
            (fun p => (p.result.runOutputCap, p.result.runOutputSent, p.result.success)) =
          [(some 1, ["out"], some true), (some 1, [], none)]
      ∧ (sharedRun demoConstants demoCaptureRunner [demoHook false "always"] demoExecCapture
          (fun _ _ => 0) (fun k => k)
          ((ExecuteWithRunCapture demoConstants demoWorld demoExecCapture (fun _ _ => 0)
            (fun k => k) "pre" "dev" (some demoRegions) true true).passes.map
              (fun p => p.runArgs))).enabled = []
      ∧ (sharedRun demoConstants demoCaptureRunner [demoHook false "always"] demoExecCapture
          (fun _ _ => 0) (fun k => k)
          ((ExecuteWithRunCapture demoConstants demoWorld demoExecCapture (fun _ _ => 0)
            (fun k => k) "pre" "dev" (some demoRegions) true true).passes.map
              (fun p => p.runArgs))).passes.map
            (fun p => (p.ctl, p.running.map (fun g => (g.toSend, g.blocked)))) =
          [(Ctl.returned true, []), (Ctl.barrier 1 [], [(["out"], true)])]
      ∧ (ExecuteWithRunCapture demoConstants demoWorld demoExecCapture (fun _ _ => 0)
          (fun _ => 0) "pre" "dev" (some demoRegions) true true).success = some true
      ∧ (ExecuteWithRunCapture demoConstants demoWorld demoExecCapture (fun _ _ => 0)
          (fun k => k) "pre" "dev" (some demoRegions) true false).success = some true
      ∧ (ExecuteWithRunCapture demoConstants demoWorld demoExecCapture (fun _ _ => 0)
          (fun k => k) "pre" "dev" (some demoRegions) true false).received = [true, true])
      ∧ (∀ (c : Constants) (w : World)
          (exec : Nat → Nat → Hook → List String → HookOutcome) (sched : Nat → Nat → Nat)
          (rsched : Nat → Nat) (hookName environment : String)
          (provisionedRegions : Option (List Region)) (commandSuccess : Bool)
          (config : Config) (workingDir : String) (configHooks : List Hook)
          (env : Environment),
          w.GetConfig = some config → w.Getwd = some workingDir →
          config.Hooks hookName = some configHooks → environment ≠ "" →
          config.GetEnvironment environment = some env →
          (∀ pr ∈ targetRegions env provisionedRegions,
            (resolveRegion w env environment pr).isSome = true) →
        (ExecuteWithRunCapture c w exec sched rsched hookName environment provisionedRegions
            commandSuccess false).passes =
            separatePasses c
              { runOutput := false, serviceName := config.ServiceName, hookName := hookName,
                commandSuccess := commandSuccess }
              configHooks exec sched
              ((targetRegions env provisionedRegions).map (fun pr =>
                runArgsFactory c w config workingDir ++
                  (resolveRegion w env environment pr).getD []))
          ∧ (∀ p ∈ (ExecuteWithRunCapture c w exec sched rsched hookName environment
                provisionedRegions commandSuccess false).passes,
              ∃ b, p.result.success = some b)
          ∧ (ExecuteWithRunCapture c w exec sched rsched hookName environment provisionedRegions
              commandSuccess false).received.Perm
              ((ExecuteWithRunCapture c w exec sched rsched hookName environment provisionedRegions
                commandSuccess false).passes.filterMap (fun p => p.result.success))
          ∧ (ExecuteWithRunCapture c w exec sched rsched hookName environment provisionedRegions
              commandSuccess false).received.length =
              (targetRegions env provisionedRegions).length
          ∧ (ExecuteWithRunCapture c w exec sched rsched hookName environment provisionedRegions
              commandSuccess false).success =
              some ((ExecuteWithRunCapture c w exec sched rsched hookName environment
                provisionedRegions commandSuccess false).received.all id)
          ∧ (ExecuteWithRunCapture c w exec sched rsched hookName environment provisionedRegions
              commandSuccess false).success =
              some ((ExecuteWithRunCapture c w exec sched rsched hookName environment
                provisionedRegions commandSuccess false).passes.all
                  (fun p => p.result.success == some true))
          ∧ (∀ p1 p2 : Pass,
              (ExecuteWithRunCapture c w exec sched rsched hookName environment provisionedRegions
                commandSuccess false).passes = [p1, p2] →
              p1.result.success = some true → p2.result.success = some false →
              (ExecuteWithRunCapture c w exec sched rsched hookName environment provisionedRegions
                commandSuccess false).success = some false))
      ∧ (∀ (c : Constants) (recv : regionHookRunner) (configHooks : List Hook)
          (exec : Nat → Nat → Hook → List String → HookOutcome) (sched : Nat → Nat → Nat)
          (rsched : Nat → Nat) (started : List (List String)),
          (sharedRun c recv configHooks exec sched rsched started).enabled = []
            ∧ ∀ p ∈ (sharedRun c recv configHooks exec sched rsched started).passes,
              ((∃ success, p.ctl = Ctl.returned success) ∨
                (∃ left rest, p.ctl = Ctl.barrier (left + 1) rest ∧ p.st.pending = []))
              ∧ ∀ g ∈ p.running, g.blocked = true) := by
  refine ⟨⟨by decide, by decide, by decide, by decide, by decide, by decide, by decide,
    by decide⟩, ?_, ?_⟩
  · intro c w exec sched rsched hookName environment provisionedRegions commandSuccess config
      workingDir configHooks env hconf hwd hhooks henv hget hres
    exact region_aggregate_no_capture c w exec sched rsched hookName environment
      provisionedRegions commandSuccess config workingDir configHooks env hconf hwd hhooks henv
      hget hres
  · intro c recv configHooks exec sched rsched started
    exact ⟨sharedRun_quiescent c recv configHooks exec sched rsched started,
      sharedRun_stuck c recv configHooks exec sched rsched started⟩

/-- C7, as amended: when the lifecycle point has configured hooks and the
environment name is empty, `ExecuteWithRunCapture` runs exactly one pass, on the
arguments `runArgsFactory` builds and nothing more, and returns that pass's
result, whatever regions were passed. -/
theorem C7_regionless_pass (c : Constants) (w : World)
    (exec : Nat → Nat → Hook → List String → HookOutcome) (sched : Nat → Nat → Nat)
    (rsched : Nat → Nat) (hookName : String)
    (provisionedRegions : Option (List Region)) (commandSuccess runOutput : Bool)
    (config : Config) (workingDir : String) (configHooks : List Hook)
    (hconf : w.GetConfig = some config) (hwd : w.Getwd = some workingDir)
    (hhooks : config.Hooks hookName = some configHooks) :
    (ExecuteWithRunCapture c w exec sched rsched hookName "" provisionedRegions
        commandSuccess runOutput).passes =
        [{ runArgs := runArgsFactory c w config workingDir
           result := runConfigHooks c
             { runOutput := runOutput, serviceName := config.ServiceName,
               hookName := hookName, commandSuccess := commandSuccess }
             (exec 0) (sched 0) configHooks (runArgsFactory c w config workingDir) }]
      ∧ (ExecuteWithRunCapture c w exec sched rsched hookName "" provisionedRegions
          commandSuccess runOutput).success =
          (runConfigHooks c
            { runOutput := runOutput, serviceName := config.ServiceName,
              hookName := hookName, commandSuccess := commandSuccess }
            (exec 0) (sched 0) configHooks (runArgsFactory c w config workingDir)).success
      ∧ (ExecuteWithRunCapture c w exec sched rsched hookName "" provisionedRegions
          commandSuccess runOutput).received = [] := by
  simp [ExecuteWithRunCapture, hconf, hwd, hhooks]

/-- C7, as amended, with an empty environment name and a hook that fails: one
pass on the base arguments, and the result is that pass's failure, even though
two regions were passed. -/
theorem C7_regionless_pass_witness :
    (demoWorld.GetConfig = some demoConfig ∧ demoWorld.Getwd = some "/work"
        ∧ demoConfig.Hooks "pre" = some [demoHook false "always"])
      ∧ (ExecuteWithRunCapture demoConstants demoWorld (fun _ => demoExecFailAt 0)
          (fun _ _ => 0) (fun _ => 0) "pre" "" (some demoRegions) true false).passes.map
            (fun p => p.runArgs) =
          [["run", "--rm", "-v", "/work:/repo_root", "-e", "PORTER_SERVICE_NAME=svc",
            "-e", "DOCKER_ENV_FILE=env", "-e", "HAPROXY_STATS_USERNAME=u",
            "-e", "HAPROXY_STATS_PASSWORD=p", "-e", "HAPROXY_STATS_URL=url"]]
      ∧ (ExecuteWithRunCapture demoConstants demoWorld (fun _ => demoExecFailAt 0)
          (fun _ _ => 0) (fun _ => 0) "pre" "" (some demoRegions) true false).success =
          some false :=
  have h := C7_regionless_pass demoConstants demoWorld (fun _ => demoExecFailAt 0)
    (fun _ _ => 0) (fun _ => 0) "pre" (some demoRegions) true false demoConfig "/work"
    [demoHook false "always"] rfl rfl (by decide)
  ⟨⟨rfl, rfl, by decide⟩, by decide, h.2.1.trans (by decide)⟩

/-- C7 as stated fails: with hooks configured for "pre", the environment "dev"
named and zero target regions (an empty, non-nil region list, or a nil list and
an environment without regions), `ExecuteWithRunCapture` starts no pass at all
and returns true, although a pass over the configured hooks returns false. -/
theorem C7_zero_regions_counterexample :
    demoConfig.Hooks "pre" = some [demoHook false "always"]
      ∧ targetRegions demoEnvironment (some []) = []
      ∧ targetRegions demoEnvironment none = []
      ∧ (ExecuteWithRunCapture demoConstants demoWorld (fun _ => demoExecFailAt 0)
          (fun _ _ => 0) (fun _ => 0) "pre" "dev" (some []) true false).passes = []
      ∧ (ExecuteWithRunCapture demoConstants demoWorld (fun _ => demoExecFailAt 0)
          (fun _ _ => 0) (fun _ => 0) "pre" "dev" (some []) true false).success = some true
      ∧ (ExecuteWithRunCapture demoConstants demoWorld (fun _ => demoExecFailAt 0)
          (fun _ _ => 0) (fun _ => 0) "pre" "dev" none true false).passes = []
      ∧ (ExecuteWithRunCapture demoConstants demoWorld (fun _ => demoExecFailAt 0)
          (fun _ _ => 0) (fun _ => 0) "pre" "dev" none true false).success = some true
      ∧ (runConfigHooks demoConstants
          { runOutput := false, serviceName := "svc", hookName := "pre", commandSuccess := true }
          (demoExecFailAt 0) (fun _ => 0) [demoHook false "always"]
          (runArgsFactory demoConstants demoWorld demoConfig "/work")).success = some false := by
  refine ⟨by decide, by decide, by decide, by decide, by decide, by decide, by decide, by decide⟩

end Porter
